import Mathlib

/-!
Shallow embedding of the append-only filesystem core (src/src/appendfs.c,
src/src/crc32.c) together with theorems checking the specification claims.

Conventions of the embedding:
* C byte buffers are `List Nat` with every element < 256 in well-formed data.
* C strings (paths, xattr names) are NUL-free `List Nat` byte lists; `strndup`
  behaviour is modelled explicitly where payload bytes are turned into strings.
* `off_t`/`time_t` (signed 64-bit) values are `Int`; `uint64_t`/`uint32_t`
  values are `Nat` with explicit `% 2 ^ 64` / `% 2 ^ 32` where a C cast occurs.
* The two backing files are explicit: the data log is a `List Nat` of bytes,
  the metadata log a list of appended records.  `write_record` can fail
  (modelling a failed `write(2)`); an oracle `List Bool` supplies the outcome
  of each successive `write_record` call, an exhausted oracle meaning success.
  A failed `write_record` appends nothing in the model.
* `malloc`/`realloc` failures and `EINTR` retries are not modelled (allocation
  always succeeds, interrupted calls are retried by the source itself).
* `time(NULL)` is an explicit `now : Int` argument.
-/

namespace AppendFs

/-! ### errno values (Linux) -/

def ENOENT : Nat := 2
def EIO : Nat := 5
def ENXIO : Nat := 6
def EINVAL : Nat := 22
def EEXIST : Nat := 17
def EISDIR : Nat := 21
def ENOTDIR : Nat := 20
def ENOTEMPTY : Nat := 39
def ENODATA : Nat := 61
def ERANGE : Nat := 34

/-! ### CRC32 (src/crc32.c)

`appendfs_crc32_init` fills `crc_table[i]` with eight rounds of the reflected
polynomial step starting from `i`; `appendfs_crc32` is the table-driven loop
with initial value `0xFFFFFFFF` and final xor `0xFFFFFFFF`. -/

def crc32_round (c : Nat) : Nat :=
  if c % 2 = 1 then 0xedb88320 ^^^ (c / 2) else c / 2

def crc32_rounds : Nat → Nat → Nat
  | 0, c => c
  | n + 1, c => crc32_rounds n (crc32_round c)

def crc_table (i : Nat) : Nat := crc32_rounds 8 i

def crc32_step (c b : Nat) : Nat := crc_table ((c ^^^ b) % 256) ^^^ (c / 256)

def appendfs_crc32 (data : List Nat) : Nat :=
  (data.foldl crc32_step 0xffffffff) ^^^ 0xffffffff

/-! ### little-endian codecs

The C source serialises `uint32_t`/`uint64_t` fields with `memcpy` on a
little-endian host, and replay decodes headers byte by byte (shift/or). -/

def le32enc (n : Nat) : List Nat :=
  [n % 256, n / 256 % 256, n / 65536 % 256, n / 16777216 % 256]

def le64enc (n : Nat) : List Nat :=
  le32enc (n % 4294967296) ++ le32enc (n / 4294967296 % 4294967296)

def le32dec (a b c d : Nat) : Nat := a + 256 * b + 65536 * c + 16777216 * d

/-- Decode the little-endian `uint32_t` stored at byte offset `k` of `l`. -/
def le32at (l : List Nat) (k : Nat) : Nat :=
  le32dec (l.getD k 0) (l.getD (k + 1) 0) (l.getD (k + 2) 0) (l.getD (k + 3) 0)

/-- Decode the little-endian `uint64_t` stored at byte offset `k` of `l`. -/
def le64at (l : List Nat) (k : Nat) : Nat :=
  le32at l k + 4294967296 * le32at l (k + 4)

/-- Reinterpret a `uint64_t` bit pattern as the signed `int64_t`/`off_t` value
(the C casts `(off_t)x`, `(time_t)x`). -/
def toI64 (n : Nat) : Int :=
  if n < 9223372036854775808 then (n : Int) else (n : Int) - 18446744073709551616

/-- Cast a signed 64-bit value to its `uint64_t` bit pattern (C `(uint64_t)x`). -/
def toU64 (i : Int) : Nat := (i % 18446744073709551616).toNat

/-! ### file-type bits (mode_t) -/

def S_IFREG : Nat := 0o100000
def S_IFDIR : Nat := 0o040000
def S_IFLNK : Nat := 0o120000

def S_ISREG (m : Nat) : Bool := m &&& 0o170000 == 0o100000
def S_ISDIR (m : Nat) : Bool := m &&& 0o170000 == 0o040000
def S_ISLNK (m : Nat) : Bool := m &&& 0o170000 == 0o120000

/-! ### data model (struct appendfs_extent / appendfs_xattr / appendfs_inode /
appendfs_context) -/

structure Extent where
  logical_offset : Int
  length : Nat
  data_offset : Int
  deriving DecidableEq, Repr

structure Xattr where
  name : List Nat
  value : List Nat
  deriving DecidableEq, Repr

structure Inode where
  inode_id : Nat
  path : List Nat
  mode : Nat
  size : Int
  ctime : Int
  mtime : Int
  atime : Int
  deleted : Bool
  extents : List Extent
  symlink_target : Option (List Nat)
  xattrs : List Xattr
  deriving DecidableEq, Repr

instance : Inhabited Inode :=
  ⟨{ inode_id := 0, path := [], mode := 0, size := 0, ctime := 0, mtime := 0,
     atime := 0, deleted := false, extents := [], symlink_target := none,
     xattrs := [] }⟩

/-- The in-memory part of `struct appendfs_context`: the inode table and the
monotonic id counter.  The two file descriptors are modelled separately (the
data log as a byte list, the metadata log as the list of appended records). -/
structure FsState where
  next_inode_id : Nat
  inodes : List Inode
  deriving DecidableEq, Repr

/-- `strndup(p, n)`: copy at most `n` bytes, stopping at the first NUL. -/
def strndup (l : List Nat) (n : Nat) : List Nat :=
  (l.take n).takeWhile (fun b => b != 0)

/-! ### path helpers -/

/-- `normalize_path_copy`: prepend a leading slash (byte 47) if missing. -/
def normalize_path (p : List Nat) : List Nat :=
  if p.head? = some 47 then p else 47 :: p

/-- The three comparisons of `find_inode_by_path` (the stored path may in
principle lack the leading slash; the needle is always normalized). -/
def pathMatch (stored needle : List Nat) : Bool :=
  stored == needle
    || (stored.head? != some 47 && needle.head? == some 47 && stored == needle.drop 1)
    || (stored.head? == some 47 && needle.head? != some 47 && stored.drop 1 == needle)

def find_inode_by_path_aux (needle : List Nat) : Nat → List Inode → Option (Nat × Inode)
  | _, [] => none
  | i, ino :: rest =>
    if !ino.deleted && pathMatch ino.path needle then some (i, ino)
    else find_inode_by_path_aux needle (i + 1) rest

/-- `find_inode_by_path`: first live inode whose path matches the normalized
query; returns the index into the inode table together with the row. -/
def find_inode_by_path (st : FsState) (path : List Nat) : Option (Nat × Inode) :=
  find_inode_by_path_aux (normalize_path path) 0 st.inodes

def find_inode_by_id_aux (id : Nat) : Nat → List Inode → Option (Nat × Inode)
  | _, [] => none
  | i, ino :: rest =>
    if ino.inode_id == id then some (i, ino)
    else find_inode_by_id_aux id (i + 1) rest

/-- `find_inode_by_id`: first inode row with the given id (tombstones included). -/
def find_inode_by_id (st : FsState) (id : Nat) : Option (Nat × Inode) :=
  find_inode_by_id_aux id 0 st.inodes

/-- In-place update of the inode row at index `i` (C mutates through a pointer). -/
def updateAt (i : Nat) (f : Inode → Inode) : List Inode → List Inode
  | [] => []
  | x :: rest => if i = 0 then f x :: rest else x :: updateAt (i - 1) f rest

/-- `path_is_prefix(path, prefix)` from the source (renamed for Lean): `path`
starts with `pfx`, and the match ends at a component boundary unless `pfx`
ends in a slash or is empty. -/
def pathIsPrefix (path pfx : List Nat) : Bool :=
  if !pfx.isPrefixOf path then false
  else if pfx.length = 0 then true
  else if pfx.getLast? == some 47 then true
  else
    match path.get? pfx.length with
    | none => true
    | some c => c == 47

/-- Index of the last slash in a path (the `strrchr(path, '/')` position). -/
def lastSlashIdx : List Nat → Option Nat
  | [] => none
  | a :: rest =>
    match lastSlashIdx rest with
    | some i => some (i + 1)
    | none => if a = 47 then some 0 else none

/-- `split_path`: parent directory and final component of an absolute path;
fails with `EINVAL` when the path is not absolute, is the root, or ends in a
slash. -/
def split_path (path : List Nat) : Except Nat (List Nat × List Nat) :=
  if path.head? ≠ some 47 then Except.error EINVAL
  else if path = [47] then Except.error EINVAL
  else
    match lastSlashIdx path with
    | none => Except.error EINVAL
    | some idx =>
      let name := path.drop (idx + 1)
      if name = [] then Except.error EINVAL
      else
        let parent := if idx = 0 then [47] else path.take idx
        Except.ok (parent, name)

/-- `is_immediate_child(parent, candidate)`: candidate is exactly one
component below parent. -/
def is_immediate_child (parent candidate : List Nat) : Bool :=
  if parent == [47] then
    match candidate with
    | 47 :: rest => rest != [] && !(rest.contains 47)
    | _ => false
  else
    parent.isPrefixOf candidate
      && candidate.get? parent.length == some 47
      && (let rest := candidate.drop (parent.length + 1)
          rest != [] && !(rest.contains 47))

/-! ### xattr internals -/

def find_xattr_aux (name : List Nat) : Nat → List Xattr → Option (Nat × Xattr)
  | _, [] => none
  | i, x :: rest =>
    if x.name == name then some (i, x) else find_xattr_aux name (i + 1) rest

/-- `find_xattr`: first attribute with the given name (index and entry). -/
def find_xattr (ino : Inode) (name : List Nat) : Option (Nat × Xattr) :=
  find_xattr_aux name 0 ino.xattrs

def XATTR_CREATE : Nat := 1
def XATTR_REPLACE : Nat := 2

/-- `set_xattr_internal`: honours `XATTR_CREATE`/`XATTR_REPLACE`, then either
overwrites the existing entry in place or appends a new one. -/
def set_xattr_internal (ino : Inode) (name value : List Nat) (flags : Nat) :
    Except Nat Inode :=
  let existing := find_xattr ino name
  if flags &&& XATTR_CREATE ≠ 0 && existing.isSome then Except.error EEXIST
  else if flags &&& XATTR_REPLACE ≠ 0 && existing.isNone then Except.error ENODATA
  else
    match existing with
    | some (i, x) =>
      Except.ok { ino with xattrs := ino.xattrs.set i { x with value := value } }
    | none =>
      Except.ok { ino with xattrs := ino.xattrs ++ [{ name := name, value := value }] }

def removeFirstXattr (name : List Nat) : List Xattr → List Xattr
  | [] => []
  | x :: rest => if x.name == name then rest else x :: removeFirstXattr name rest

/-- `remove_xattr_internal`: drop the first attribute with the given name,
`ENODATA` if absent. -/
def remove_xattr_internal (ino : Inode) (name : List Nat) : Except Nat Inode :=
  if (find_xattr ino name).isSome then
    Except.ok { ino with xattrs := removeFirstXattr name ino.xattrs }
  else Except.error ENODATA

def clear_inode_xattrs (ino : Inode) : Inode := { ino with xattrs := [] }

/-! ### extents -/

/-- `add_extent`: append an extent to the inode's list. -/
def add_extent (ino : Inode) (logical data_offset : Int) (length : Nat) : Inode :=
  { ino with extents := ino.extents ++
      [{ logical_offset := logical, length := length, data_offset := data_offset }] }

/-- The truncate trimming loop shared by `appendfs_truncate` and replay of
TRUNCATE records: drop extents starting at or past the new size, trim the one
straddling it (the loop breaks at the first such extent). -/
def trimExtents (new_size : Int) : List Extent → List Extent
  | [] => []
  | e :: rest =>
    if e.logical_offset ≥ new_size then []
    else if e.logical_offset + (e.length : Int) > new_size then
      [{ e with length := ((new_size - e.logical_offset).toNat) % 4294967296 }]
    else e :: trimExtents new_size rest

/-! ### metadata records and the replay engine (replay_metadata) -/

/-- One metadata record as framed in the log: type byte and payload bytes.
The 9-byte header on disk carries the type, the payload length (le32) and the
CRC32 of the payload (le32). -/
structure MRec where
  t : Nat
  payload : List Nat
  deriving DecidableEq, Repr

/-- The bytes `write_record` produces for a record: header then payload. -/
def encodeRecord (r : MRec) : List Nat :=
  r.t :: (le32enc r.payload.length ++ (le32enc (appendfs_crc32 r.payload) ++ r.payload))

def encodeRecords (rs : List MRec) : List Nat :=
  rs.foldr (fun r acc => encodeRecord r ++ acc) []

/-- A frame with an arbitrary (possibly wrong) checksum field. -/
def rawFrame (t : Nat) (payload : List Nat) (chk : Nat) : List Nat :=
  t :: (le32enc payload.length ++ (le32enc chk ++ payload))

/-- Record type constants (enum appendfs_record_type). -/
def RT_CREATE : Nat := 1
def RT_EXTENT : Nat := 2
def RT_TRUNCATE : Nat := 3
def RT_UNLINK : Nat := 4
def RT_RENAME : Nat := 5
def RT_MKDIR : Nat := 6
def RT_SETXATTR : Nat := 7
def RT_REMOVEXATTR : Nat := 8
def RT_TIMES : Nat := 9

/-- Apply one successfully checksummed record to the in-memory state: the
switch statement inside `replay_metadata`.  Records that are too short, carry
an unknown type or reference a missing inode are ignored. -/
def applyRecord (s : FsState) (t : Nat) (p : List Nat) : FsState :=
  let len := p.length
  if t = RT_CREATE ∨ t = RT_MKDIR then
    if len < 28 then s
    else
      let inode_id := le64at p 0
      let mode := le32at p 8
      let size := le64at p 12
      let ts := le64at p 20
      let path_len := le32at p 28
      if 32 + path_len > len then s
      else
        let path := strndup (p.drop 32) path_len
        let (idx, base, st1) :=
          match find_inode_by_id s inode_id with
          | none =>
            let fresh : Inode :=
              { inode_id := inode_id, path := [], mode := 0, size := 0,
                ctime := 0, mtime := 0, atime := 0, deleted := false,
                extents := [], symlink_target := none, xattrs := [] }
            (s.inodes.length, fresh, { s with inodes := s.inodes ++ [fresh] })
          | some (i, ino) =>
            (i, { ino with extents := [], symlink_target := none, xattrs := [] }, s)
        let off := 32 + path_len
        let target : Option (List Nat) :=
          if S_ISLNK mode then
            if off + 4 ≤ len then
              let target_len := le32at p off
              if off + 4 + target_len ≤ len then
                some (strndup (p.drop (off + 4)) target_len)
              else none
            else none
          else none
        let tgt : Option (List Nat) :=
          match target with
          | some tg => some tg
          | none => base.symlink_target
        let upd : Inode :=
          { base with
              path := path, mode := mode, size := toI64 size,
              ctime := toI64 ts, mtime := toI64 ts, atime := toI64 ts,
              deleted := false, symlink_target := tgt }
        let st2 := { st1 with inodes := updateAt idx (fun _ => upd) st1.inodes }
        if st2.next_inode_id ≤ inode_id then
          { st2 with next_inode_id := inode_id + 1 }
        else st2
  else if t = RT_EXTENT then
    if len < 36 then s
    else
      let inode_id := le64at p 0
      let logical := toI64 (le64at p 8)
      let data_offset := toI64 (le64at p 16)
      let elen := le32at p 24
      let new_size := toI64 (le64at p 28)
      match find_inode_by_id s inode_id with
      | none => s
      | some (idx, _) =>
        let upd : Inode → Inode := fun ino =>
          let ino1 := add_extent ino logical data_offset elen
          if new_size > ino1.size then { ino1 with size := new_size } else ino1
        { s with inodes := updateAt idx upd s.inodes }
  else if t = RT_TRUNCATE then
    if len < 16 then s
    else
      let inode_id := le64at p 0
      let new_size := toI64 (le64at p 8)
      match find_inode_by_id s inode_id with
      | none => s
      | some (idx, _) =>
        let upd : Inode → Inode := fun ino =>
          { ino with size := new_size, extents := trimExtents new_size ino.extents }
        { s with inodes := updateAt idx upd s.inodes }
  else if t = RT_UNLINK then
    if len < 8 then s
    else
      match find_inode_by_id s (le64at p 0) with
      | none => s
      | some (idx, _) =>
        { s with inodes := updateAt idx (fun ino => { ino with deleted := true }) s.inodes }
  else if t = RT_RENAME then
    if len < 12 then s
    else
      let inode_id := le64at p 0
      let path_len := le32at p 8
      if 12 + path_len > len then s
      else
        match find_inode_by_id s inode_id with
        | none => s
        | some (idx, _) =>
          let path := strndup (p.drop 12) path_len
          { s with inodes := updateAt idx (fun ino =>
              { ino with path := path, deleted := false }) s.inodes }
  else if t = RT_SETXATTR then
    if len < 16 then s
    else
      let inode_id := le64at p 0
      let name_len := le32at p 8
      let value_len := le32at p 12
      if 16 + name_len + value_len > len then s
      else
        match find_inode_by_id s inode_id with
        | none => s
        | some (idx, _) =>
          let name := strndup (p.drop 16) name_len
          let value := (p.drop (16 + name_len)).take value_len
          { s with inodes := updateAt idx (fun ino =>
              match set_xattr_internal ino name value 0 with
              | Except.ok ino1 => ino1
              | Except.error _ => ino) s.inodes }
  else if t = RT_REMOVEXATTR then
    if len < 12 then s
    else
      let inode_id := le64at p 0
      let name_len := le32at p 8
      if 12 + name_len > len then s
      else
        match find_inode_by_id s inode_id with
        | none => s
        | some (idx, _) =>
          let name := strndup (p.drop 12) name_len
          { s with inodes := updateAt idx (fun ino =>
              match remove_xattr_internal ino name with
              | Except.ok ino1 => ino1
              | Except.error _ => ino) s.inodes }
  else if t = RT_TIMES then
    if len < 24 then s
    else
      let inode_id := le64at p 0
      let atime := toI64 (le64at p 8)
      let mtime := toI64 (le64at p 16)
      match find_inode_by_id s inode_id with
      | none => s
      | some (idx, _) =>
        { s with inodes := updateAt idx (fun ino =>
            { ino with atime := atime, mtime := mtime }) s.inodes }
  else s

/-- The replay loop, fuel-indexed so it computes by `rfl`/`decide`.  Each
iteration reads a 9-byte header; a short header or a short payload read ends
replay (torn tail tolerance); a checksum mismatch skips the record.  The
second component is the byte count consumed through the last fully read
record, i.e. the file position at which the loop stopped. -/
def replayLoop : Nat → FsState → List Nat → FsState × Nat
  | 0, s, _ => (s, 0)
  | fuel + 1, s, bytes =>
    match bytes with
    | t :: a :: b :: c :: d :: e :: f :: g :: h :: rest =>
      let len := le32dec a b c d
      let chk := le32dec e f g h
      if rest.length < len then (s, 0)
      else
        let payload := rest.take len
        let rest2 := rest.drop len
        if appendfs_crc32 payload = chk then
          let (s1, consumed) := replayLoop fuel (applyRecord s t payload) rest2
          (s1, 9 + len + consumed)
        else
          let (s1, consumed) := replayLoop fuel s rest2
          (s1, 9 + len + consumed)
    | _ => (s, 0)

/-- The state `appendfs_open` starts replay from: empty table, next id 1. -/
def initState : FsState := { next_inode_id := 1, inodes := [] }

/-- `replay_metadata`: replay the whole log, then `lseek(meta_fd, 0, SEEK_END)`;
the result is the reconstructed state together with the file offset at which
subsequent records will be appended (the raw end of the log). -/
def replay_metadata (bytes : List Nat) : FsState × Nat :=
  ((replayLoop (bytes.length + 1) initState bytes).1, bytes.length)

/-- The offset just past the last fully read record (the boundary at which the
replay loop stopped consuming input). -/
def lastBoundary (bytes : List Nat) : Nat :=
  (replayLoop (bytes.length + 1) initState bytes).2

/-! ### read path (appendfs_read) -/

/-- `memcpy(buf + pos, chunk, chunk.length)` on a caller buffer. -/
def memcpyAt (buf : List Nat) (pos : Nat) (chunk : List Nat) : List Nat :=
  buf.take pos ++ chunk ++ buf.drop (pos + chunk.length)

/-- The extent walk of `appendfs_read`: for each extent overlapping the
request, `pread` the overlap from the data log and copy it to `out + total`
(not to its logical position), stopping once `total` reaches `size`.  A short
`pread` (reading past the end of the data log) fails the whole call. -/
def read_extents (dataLog : List Nat) (size : Nat) (offset : Int) :
    List Extent → Nat → List Nat → Option (Nat × List Nat)
  | [], total, buf => some (total, buf)
  | ext :: rest, total, buf =>
    if total < size then
      let ext_end := ext.logical_offset + (ext.length : Int)
      if offset ≥ ext_end then read_extents dataLog size offset rest total buf
      else
        let start := max offset ext.logical_offset
        let stop := min ext_end (offset + ((size - total : Nat) : Int))
        if start ≥ stop then read_extents dataLog size offset rest total buf
        else
          let read_len := (stop - start).toNat
          let data_pos := ext.data_offset + (start - ext.logical_offset)
          if data_pos < 0 ∨ (data_pos + (read_len : Int)) > (dataLog.length : Int) then
            none
          else
            let chunk := (dataLog.drop data_pos.toNat).take read_len
            read_extents dataLog size offset rest (total + read_len)
              (memcpyAt buf total chunk)
    else some (total, buf)

/-- `appendfs_read(ctx, path, buf, size, offset)`.  Returns the C return value
together with the caller's buffer after the call, plus the context state
(atime may be updated).  `buf` is the caller's buffer contents before the
call (the source does not clear it). -/
def appendfs_read (st : FsState) (dataLog : List Nat) (path : List Nat)
    (buf : List Nat) (size : Nat) (offset : Int) (now : Int) :
    Except Nat (Nat × List Nat) × FsState :=
  match find_inode_by_path st path with
  | none => (Except.error ENOENT, st)
  | some (idx, ino) =>
    if ino.deleted then (Except.error ENOENT, st)
    else if offset ≥ ino.size then (Except.ok (0, buf), st)
    else
      match read_extents dataLog size offset ino.extents 0 buf with
      | none => (Except.error EIO, st)
      | some (total, buf1) =>
        if total > 0 then
          (Except.ok (total, buf1),
            { st with inodes := updateAt idx (fun i => { i with atime := now }) st.inodes })
        else (Except.ok (total, buf1), st)

/-! ### metadata-record append (write_record) and record builders

`write_record` performs two `write_all` calls on the metadata log; either can
fail.  The oracle yields the outcome of each successive call; an exhausted
oracle means success.  A failed append contributes nothing to the modelled
log (the record is not replayable). -/

def write_record (oracle : List Bool) : Bool × List Bool :=
  match oracle with
  | [] => (true, [])
  | b :: rest => (b, rest)

/-- `append_create_record`: CREATE/MKDIR payload (type chosen from the mode). -/
def create_record (ino : Inode) : MRec :=
  let base := le64enc ino.inode_id ++ le32enc (ino.mode % 4294967296) ++
    le64enc (toU64 ino.size) ++ le64enc (toU64 ino.mtime) ++
    le32enc (ino.path.length % 4294967296) ++ ino.path
  let payload :=
    if S_ISLNK ino.mode then
      match ino.symlink_target with
      | some tg => base ++ le32enc (tg.length % 4294967296) ++ tg
      | none => base
    else base
  { t := if S_ISDIR ino.mode then RT_MKDIR else RT_CREATE, payload := payload }

/-- `append_extent_record` payload. -/
def extent_record (ino : Inode) (logical data_offset : Int) (length : Nat) : MRec :=
  { t := RT_EXTENT,
    payload := le64enc ino.inode_id ++ le64enc (toU64 logical) ++
      le64enc (toU64 data_offset) ++ le32enc (length % 4294967296) ++
      le64enc (toU64 ino.size) }

/-- `append_truncate_record` payload. -/
def truncate_record (ino : Inode) : MRec :=
  { t := RT_TRUNCATE, payload := le64enc ino.inode_id ++ le64enc (toU64 ino.size) }

/-- `append_unlink_record` payload. -/
def unlink_record (ino : Inode) : MRec :=
  { t := RT_UNLINK, payload := le64enc ino.inode_id }

/-- `append_rename_record` payload. -/
def rename_record (ino : Inode) (new_path : List Nat) : MRec :=
  { t := RT_RENAME,
    payload := le64enc ino.inode_id ++ le32enc (new_path.length % 4294967296) ++ new_path }

/-- `append_setxattr_record` payload. -/
def setxattr_record (ino : Inode) (name value : List Nat) : MRec :=
  { t := RT_SETXATTR,
    payload := le64enc ino.inode_id ++ le32enc (name.length % 4294967296) ++
      le32enc (value.length % 4294967296) ++ name ++ value }

/-- `append_removexattr_record` payload. -/
def removexattr_record (ino : Inode) (name : List Nat) : MRec :=
  { t := RT_REMOVEXATTR,
    payload := le64enc ino.inode_id ++ le32enc (name.length % 4294967296) ++ name }

/-! ### filesystem operations

Each operation returns the C result, the context state after the call, and
the list of records successfully appended to the metadata log by the call. -/

/-- `create_inode`: append a fresh row with the next id; the path is
normalized, timestamps set to now.  Returns the new state, the row index and
the row. -/
def create_inode (st : FsState) (path : List Nat) (mode : Nat) (now : Int) :
    FsState × Nat × Inode :=
  let ino : Inode :=
    { inode_id := st.next_inode_id, path := normalize_path path, mode := mode,
      size := 0, ctime := now, mtime := now, atime := now, deleted := false,
      extents := [], symlink_target := none, xattrs := [] }
  ({ next_inode_id := st.next_inode_id + 1, inodes := st.inodes ++ [ino] },
    st.inodes.length, ino)

/-- The shared parent check: the parent path is not root and no live directory
inode exists at it (`find_inode_by_path` only returns live rows, so the
`parent_inode->deleted` test in the source can never fire). -/
def parent_missing (st : FsState) (parent : List Nat) : Bool :=
  parent != [47] &&
    (match find_inode_by_path st parent with
     | none => true
     | some (_, p) => !S_ISDIR p.mode)

/-- `appendfs_create_file`.  The resurrect-a-tombstone branch in the source is
unreachable: `find_inode_by_path` never returns a deleted row, so `existing`
is either a live inode (EEXIST) or NULL (fresh creation). -/
def appendfs_create_file (st : FsState) (path : List Nat) (mode : Nat)
    (now : Int) (oracle : List Bool) : Except Nat Unit × FsState × List MRec :=
  let norm := normalize_path path
  match find_inode_by_path st norm with
  | some _ => (Except.error EEXIST, st, [])
  | none =>
    match split_path norm with
    | Except.error e => (Except.error e, st, [])
    | Except.ok (parent, _) =>
      if parent_missing st parent then (Except.error ENOENT, st, [])
      else
        let (st1, idx, ino0) := create_inode st norm (S_IFREG ||| mode) now
        let ino1 := { ino0 with
                        mode := S_IFREG ||| mode,
                        ctime := now, mtime := now, atime := now }
        let st2 := { st1 with inodes := updateAt idx (fun _ => ino1) st1.inodes }
        let (okb, _) := write_record oracle
        if okb then (Except.ok (), st2, [create_record ino1])
        else
          (Except.error EIO,
            { next_inode_id := st.next_inode_id + 1, inodes := st.inodes }, [])

/-- `appendfs_mkdir`: rejects `""` and `"/"`, requires a live parent
directory, masks the mode with 0777.  (The tombstone-resurrect branch is
unreachable, as in `appendfs_create_file`.) -/
def appendfs_mkdir (st : FsState) (path : List Nat) (mode : Nat) (now : Int)
    (oracle : List Bool) : Except Nat Unit × FsState × List MRec :=
  if path = [] then (Except.error EINVAL, st, [])
  else if path = [47] then (Except.error EINVAL, st, [])
  else
    let norm := normalize_path path
    match find_inode_by_path st norm with
    | some _ => (Except.error EEXIST, st, [])
    | none =>
      match split_path norm with
      | Except.error e => (Except.error e, st, [])
      | Except.ok (parent, _) =>
        if parent_missing st parent then (Except.error ENOENT, st, [])
        else
          let (st1, idx, ino) := create_inode st norm (S_IFDIR ||| (mode &&& 0o777)) now
          let _ := idx
          let (okb, _) := write_record oracle
          if okb then (Except.ok (), st1, [create_record ino])
          else
            (Except.error EIO,
              { next_inode_id := st.next_inode_id + 1, inodes := st.inodes }, [])

/-- `appendfs_mkdirs`: returns success immediately if any live inode exists at
the path; otherwise allocates a directory inode with **no parent check** and
no 0777 mask. -/
def appendfs_mkdirs (st : FsState) (path : List Nat) (mode : Nat) (now : Int)
    (oracle : List Bool) : Except Nat Unit × FsState × List MRec :=
  match find_inode_by_path st path with
  | some _ => (Except.ok (), st, [])
  | none =>
    let (st1, idx, ino) := create_inode st path (S_IFDIR ||| mode) now
    let _ := idx
    let (okb, _) := write_record oracle
    if okb then (Except.ok (), st1, [create_record ino])
    else
      (Except.error EIO,
        { next_inode_id := st.next_inode_id + 1, inodes := st.inodes }, [])

/-- `appendfs_unlink`: tombstones the inode in memory, then appends the UNLINK
record; a failed append leaves the tombstone in place. -/
def appendfs_unlink (st : FsState) (path : List Nat) (oracle : List Bool) :
    Except Nat Unit × FsState × List MRec :=
  match find_inode_by_path st path with
  | none => (Except.error ENOENT, st, [])
  | some (idx, ino) =>
    if S_ISDIR ino.mode then (Except.error EISDIR, st, [])
    else
      let st1 := { st with
                     inodes := updateAt idx (fun i => { i with deleted := true }) st.inodes }
      let (okb, _) := write_record oracle
      if okb then (Except.ok (), st1, [unlink_record ino])
      else (Except.error EIO, st1, [])

/-- `appendfs_truncate`: sets the size, appends the TRUNCATE record, then
trims the extents and stamps mtime; a failed append leaves the new size in
place with the extents untrimmed. -/
def appendfs_truncate (st : FsState) (path : List Nat) (size : Int) (now : Int)
    (oracle : List Bool) : Except Nat Unit × FsState × List MRec :=
  match find_inode_by_path st path with
  | none => (Except.error ENOENT, st, [])
  | some (idx, ino) =>
    if !S_ISREG ino.mode && !S_ISLNK ino.mode then (Except.error EINVAL, st, [])
    else
      let ino1 := { ino with size := size }
      let st1 := { st with inodes := updateAt idx (fun _ => ino1) st.inodes }
      let (okb, _) := write_record oracle
      if !okb then (Except.error EIO, st1, [])
      else
        let ino2 := { ino1 with
                        extents := trimExtents size ino1.extents, mtime := now }
        let st2 := { st1 with inodes := updateAt idx (fun _ => ino2) st1.inodes }
        (Except.ok (), st2, [truncate_record ino1])

/-- `appendfs_is_directory_empty`: no live inode is an immediate child. -/
def appendfs_is_directory_empty (st : FsState) (path : List Nat) : Bool :=
  let dir := normalize_path path
  st.inodes.all fun ino =>
    ino.deleted || ino.path == dir || !is_immediate_child dir ino.path

/-! ### rename (appendfs_rename) -/

/-- The per-row test of the descendant-collection loop of `appendfs_rename`:
`path_is_prefix(child->path, from)` together with
`strlen(child->path) > from_len && child->path[from_len] == '/'`. -/
def childCond (fromN : List Nat) (ino : Inode) : Bool :=
  pathIsPrefix ino.path fromN
    && decide (fromN.length < ino.path.length)
    && ino.path.get? fromN.length == some 47

/-- The descendant-collection loop of `appendfs_rename`: every live row other
than the moved inode itself whose path extends `fromN` past a `/` at position
`fromN.length`, paired with its new path `toN ++ suffix`. -/
def collectChildrenAux (fromIdx : Nat) (fromN toN : List Nat) :
    Nat → List Inode → List (Nat × List Nat)
  | _, [] => []
  | i, ino :: rest =>
    let tail := collectChildrenAux fromIdx fromN toN (i + 1) rest
    if i == fromIdx || ino.deleted then tail
    else if childCond fromN ino then
      (i, toN ++ ino.path.drop fromN.length) :: tail
    else tail

/-- The per-descendant loop: append a RENAME record for the child, then update
its path; an append failure aborts mid-sequence, leaving earlier children
renamed. -/
def renameChildrenLoop :
    List (Nat × List Nat) → List Inode → List Bool → List MRec →
    Except Nat Unit × List Inode × List MRec
  | [], inodes, _, frames => (Except.ok (), inodes, frames)
  | (i, p) :: rest, inodes, oracle, frames =>
    let child := inodes.getD i default
    let (okb, o1) := write_record oracle
    if okb then
      renameChildrenLoop rest
        (updateAt i (fun ino => { ino with path := p, deleted := false }) inodes)
        o1 (frames ++ [rename_record child p])
    else (Except.error EIO, inodes, frames)

/-- `appendfs_rename`: destination checks and tombstoning, subtree collection,
then RENAME records ancestor-first followed by each descendant. -/
def appendfs_rename (st : FsState) (from_path to_path : List Nat) (now : Int)
    (oracle : List Bool) : Except Nat Unit × FsState × List MRec :=
  let from_norm := normalize_path from_path
  let to_norm := normalize_path to_path
  match find_inode_by_path st from_norm with
  | none => (Except.error ENOENT, st, [])
  | some (fromIdx, ino) =>
    if from_norm = to_norm then (Except.ok (), st, [])
    else
      match split_path to_norm with
      | Except.error e => (Except.error e, st, [])
      | Except.ok (to_parent, _) =>
        if parent_missing st to_parent then (Except.error ENOENT, st, [])
        else
          -- continuation after the destination has been dealt with
          let proceed : FsState → List MRec → List Bool →
              Except Nat Unit × FsState × List MRec :=
            fun st1 frames0 o1 =>
              let children :=
                if S_ISDIR ino.mode then
                  collectChildrenAux fromIdx from_norm to_norm 0 st1.inodes
                else []
              let (okb, o2) := write_record o1
              if !okb then (Except.error EIO, st1, frames0)
              else
                let frames1 := frames0 ++ [rename_record ino to_norm]
                let st2 := { st1 with
                               inodes := updateAt fromIdx
                                 (fun i => { i with path := to_norm, deleted := false, mtime := now })
                                 st1.inodes }
                let (res, inodes3, frames2) :=
                  renameChildrenLoop children st2.inodes o2 frames1
                (res, { st2 with inodes := inodes3 }, frames2)
          -- destination handling: type checks, then tombstone + UNLINK record
          match find_inode_by_path st to_norm with
          | none => proceed st [] oracle
          | some (destIdx, dest) =>
            if S_ISDIR ino.mode && !S_ISDIR dest.mode then (Except.error ENOTDIR, st, [])
            else if S_ISDIR ino.mode && !appendfs_is_directory_empty st to_norm then
              (Except.error ENOTEMPTY, st, [])
            else if !S_ISDIR ino.mode && S_ISDIR dest.mode then (Except.error EISDIR, st, [])
            else
              let st1 := { st with
                             inodes := updateAt destIdx
                               (fun d => { d with deleted := true, mtime := now })
                               st.inodes }
              let (okb, o1) := write_record oracle
              if okb then proceed st1 [unlink_record dest] o1
              else (Except.error EIO, st1, [])

/-! ### xattr operations -/

/-- `appendfs_setxattr`: snapshot the prior value, mutate in memory, append
the record, and on append failure restore the snapshot (re-set the old value,
or remove the freshly inserted attribute). -/
def appendfs_setxattr (st : FsState) (path name value : List Nat) (flags : Nat)
    (oracle : List Bool) : Except Nat Unit × FsState × List MRec :=
  match find_inode_by_path st path with
  | none => (Except.error ENOENT, st, [])
  | some (idx, ino) =>
    let existing := find_xattr ino name
    let old_value : List Nat :=
      match existing with
      | some (_, x) => x.value
      | none => []
    match set_xattr_internal ino name value flags with
    | Except.error e => (Except.error e, st, [])
    | Except.ok ino1 =>
      let st1 := { st with inodes := updateAt idx (fun _ => ino1) st.inodes }
      let (okb, _) := write_record oracle
      if okb then (Except.ok (), st1, [setxattr_record ino1 name value])
      else
        let ino2 :=
          if existing.isSome then
            match set_xattr_internal ino1 name old_value XATTR_REPLACE with
            | Except.ok i2 => i2
            | Except.error _ => ino1
          else
            match remove_xattr_internal ino1 name with
            | Except.ok i2 => i2
            | Except.error _ => ino1
        (Except.error EIO,
          { st with inodes := updateAt idx (fun _ => ino2) st.inodes }, [])

/-- `appendfs_removexattr`: back up the value, remove in memory, append the
record, and on append failure re-insert the removed attribute. -/
def appendfs_removexattr (st : FsState) (path name : List Nat)
    (oracle : List Bool) : Except Nat Unit × FsState × List MRec :=
  match find_inode_by_path st path with
  | none => (Except.error ENOENT, st, [])
  | some (idx, ino) =>
    match find_xattr ino name with
    | none => (Except.error ENODATA, st, [])
    | some (_, attr) =>
      let backup := attr.value
      match remove_xattr_internal ino name with
      | Except.error e => (Except.error e, st, [])
      | Except.ok ino1 =>
        let st1 := { st with inodes := updateAt idx (fun _ => ino1) st.inodes }
        let (okb, _) := write_record oracle
        if okb then (Except.ok (), st1, [removexattr_record ino name])
        else
          let ino2 :=
            match set_xattr_internal ino1 name backup XATTR_CREATE with
            | Except.ok i2 => i2
            | Except.error _ => ino1
          (Except.error EIO,
            { st with inodes := updateAt idx (fun _ => ino2) st.inodes }, [])

/-! ### open-file write path (struct appendfs_file, flush_buffer,
appendfs_write) -/

def APPENDFS_MIN_FLUSH : Nat := 4096
def APPENDFS_DEFAULT_BUFFER : Nat := 4194304

/-- `struct appendfs_file`: the inode pointer is the row index, the buffer is
its current contents (`buffer_used = buffer.length`). -/
structure AFile where
  inodeIdx : Nat
  buffer : List Nat
  buffer_size : Nat
  buffer_offset : Int
  position : Int
  flags : Nat
  deriving DecidableEq, Repr

/-- `flush_buffer`: append the buffer to the data log at its end, add the
extent, bump size/mtime, then append the EXTENT record; a failed record
append leaves the data and the extent in place and keeps the buffer. -/
def flush_buffer (st : FsState) (dataLog : List Nat) (file : AFile) (now : Int)
    (oracle : List Bool) :
    Except Nat Unit × FsState × List Nat × AFile × List MRec × List Bool :=
  if file.buffer.length = 0 then (Except.ok (), st, dataLog, file, [], oracle)
  else
    let data_offset : Int := dataLog.length
    let dataLog1 := dataLog ++ file.buffer
    let upd : Inode → Inode := fun ino =>
      let ino1 := add_extent ino file.buffer_offset data_offset
        (file.buffer.length % 4294967296)
      let new_size : Int := file.buffer_offset + (file.buffer.length : Int)
      let ino2 := if new_size > ino1.size then { ino1 with size := new_size } else ino1
      { ino2 with mtime := now }
    let st1 := { st with inodes := updateAt file.inodeIdx upd st.inodes }
    let recIno := st1.inodes.getD file.inodeIdx default
    let (okb, o1) := write_record oracle
    if okb then
      (Except.ok (), st1, dataLog1, { file with buffer := [] },
        [extent_record recIno file.buffer_offset data_offset
          (file.buffer.length % 4294967296)], o1)
    else (Except.error EIO, st1, dataLog1, file, [], o1)

/-- The copy loop of `appendfs_write`, fuel-indexed (each iteration absorbs at
least one byte whenever `buffer_size > 0`, so `size` fuel suffices; `none`
models the divergence a zero-sized buffer would cause, which cannot arise
because `appendfs_set_options` enforces `buffer_size ≥ APPENDFS_MIN_FLUSH`). -/
def write_loop (buf : List Nat) (size : Nat) (offset : Int) (now : Int) :
    Nat → Nat → FsState → List Nat → AFile → List Bool → List MRec →
    Option (Except Nat Unit × FsState × List Nat × AFile × List MRec)
  | _, 0, st, dl, f, _, frames => some (Except.ok (), st, dl, f, frames)
  | 0, _ + 1, _, _, _, _, _ => none
  | fuel + 1, remaining0 + 1, st, dl, f, oracle, frames =>
    let remaining := remaining0 + 1
    let space := f.buffer_size - f.buffer.length
    -- flush when the buffer is full
    let step1 :
        Except Nat Unit × FsState × List Nat × AFile × List Bool × List MRec :=
      if space = 0 then
        match flush_buffer st dl f now oracle with
        | (Except.error e, st1, dl1, f1, fr1, o1) =>
          (Except.error e, st1, dl1, f1, o1, frames ++ fr1)
        | (Except.ok _, st1, dl1, f1, fr1, o1) =>
          (Except.ok (),
            st1, dl1,
            { f1 with buffer_offset := offset + ((size - remaining : Nat) : Int) },
            o1, frames ++ fr1)
      else (Except.ok (), st, dl, f, oracle, frames)
    match step1 with
    | (Except.error e, st1, dl1, f1, _, frames1) => some (Except.error e, st1, dl1, f1, frames1)
    | (Except.ok _, st1, dl1, f1, o1, frames1) =>
      let space1 := f1.buffer_size - f1.buffer.length
      let to_copy := min remaining space1
      let f2 := { f1 with
                    buffer := f1.buffer ++ ((buf.drop (size - remaining)).take to_copy) }
      let remaining1 := remaining - to_copy
      if f2.buffer.length ≥ APPENDFS_MIN_FLUSH && f2.buffer.length ≥ f2.buffer_size then
        match flush_buffer st1 dl1 f2 now o1 with
        | (Except.error e, st2, dl2, f3, fr2, _) =>
          some (Except.error e, st2, dl2, f3, frames1 ++ fr2)
        | (Except.ok _, st2, dl2, f3, fr2, o2) =>
          write_loop buf size offset now fuel remaining1 st2 dl2
            { f3 with buffer_offset := offset + ((size - remaining1 : Nat) : Int) }
            o2 (frames1 ++ fr2)
      else
        write_loop buf size offset now fuel remaining1 st1 dl1 f2 o1 frames1

/-- `appendfs_write(file, buf, size, offset)`: returns the byte count written
together with the context, data log, file handle and appended records after
the call.  A zero `size` returns immediately. -/
def appendfs_write (st : FsState) (dataLog : List Nat) (file : AFile)
    (buf : List Nat) (size : Nat) (offset : Int) (now : Int)
    (oracle : List Bool) :
    Except Nat Nat × FsState × List Nat × AFile × List MRec :=
  if size = 0 then (Except.ok 0, st, dataLog, file, [])
  else
    -- flush a non-sequential continuation first
    let step1 :
        Except Nat Unit × FsState × List Nat × AFile × List Bool × List MRec :=
      if file.buffer.length > 0 &&
          offset != file.buffer_offset + (file.buffer.length : Int) then
        match flush_buffer st dataLog file now oracle with
        | (Except.error e, st1, dl1, f1, fr1, o1) => (Except.error e, st1, dl1, f1, o1, fr1)
        | (Except.ok _, st1, dl1, f1, fr1, o1) => (Except.ok (), st1, dl1, f1, o1, fr1)
      else (Except.ok (), st, dataLog, file, oracle, [])
    match step1 with
    | (Except.error e, st1, dl1, f1, _, frames1) => (Except.error e, st1, dl1, f1, frames1)
    | (Except.ok _, st1, dl1, f1, o1, frames1) =>
      let f2 := if f1.buffer.length = 0 then { f1 with buffer_offset := offset } else f1
      match write_loop buf size offset now (size + 1) size st1 dl1 f2 o1 frames1 with
      | none => (Except.error EIO, st1, dl1, f2, frames1)
      | some (Except.error e, st2, dl2, f3, frames2) => (Except.error e, st2, dl2, f3, frames2)
      | some (Except.ok _, st2, dl2, f3, frames2) =>
        (Except.ok size, st2, dl2, { f3 with position := offset + (size : Int) }, frames2)

/-! ### concrete states and derived observation functions used by the
claim theorems -/

instance {ε α : Type} [DecidableEq ε] [DecidableEq α] : DecidableEq (Except ε α) :=
  fun x y =>
    match x, y with
    | Except.error a, Except.error b =>
      decidable_of_iff (a = b) ⟨fun h => by rw [h], fun h => by injection h⟩
    | Except.error _, Except.ok _ => Decidable.isFalse fun h => by injection h
    | Except.ok _, Except.error _ => Decidable.isFalse fun h => by injection h
    | Except.ok a, Except.ok b =>
      decidable_of_iff (a = b) ⟨fun h => by rw [h], fun h => by injection h⟩

def inoC1 : Inode :=
  { inode_id := 1, path := [47, 104], mode := 0o100644, size := 110, ctime := 0,
    mtime := 0, atime := 0, deleted := false,
    extents := [{ logical_offset := 100, length := 10, data_offset := 0 }],
    symlink_target := none, xattrs := [] }

def stC1 : FsState := { next_inode_id := 2, inodes := [inoC1] }

def dataC1 : List Nat := List.replicate 10 0xAA

def inoC2 : Inode :=
  { inode_id := 1, path := [47, 111], mode := 0o100644, size := 8, ctime := 0,
    mtime := 0, atime := 0, deleted := false,
    extents := [{ logical_offset := 0, length := 8, data_offset := 0 },
      { logical_offset := 2, length := 4, data_offset := 8 }],
    symlink_target := none, xattrs := [] }

def stC2 : FsState := { next_inode_id := 2, inodes := [inoC2] }

def dataC2 : List Nat := List.replicate 8 0x11 ++ List.replicate 4 0x22

def inoC3 : Inode :=
  { inode_id := 1, path := [47, 102], mode := 0o100644, size := 7, ctime := 0,
    mtime := 0, atime := 0, deleted := false, extents := [],
    symlink_target := none, xattrs := [] }

def stC3 : FsState := { next_inode_id := 2, inodes := [inoC3] }

def inoC6 : Inode :=
  { inode_id := 1, path := [47, 102], mode := 0o100644, size := 0, ctime := 0,
    mtime := 0, atime := 0, deleted := false, extents := [],
    symlink_target := none, xattrs := [{ name := [107], value := [118] }] }

def stC6 : FsState := { next_inode_id := 2, inodes := [inoC6] }

/-- The observable name-to-value mapping of an xattr list (first match wins,
as `find_xattr` does). -/
def xlookup (name : List Nat) : List Xattr → Option (List Nat)
  | [] => none
  | x :: rest => if x.name == name then some x.value else xlookup name rest

def replayRun (s : FsState) (bytes : List Nat) : FsState × Nat :=
  replayLoop (bytes.length + 1) s bytes

/-- Folding `applyRecord` over a record list (the state replay builds). -/
def replayState (s : FsState) : List MRec → FsState
  | [] => s
  | r :: rs => replayState (applyRecord s r.t r.payload) rs

def tornC4 : List Nat :=
  encodeRecords [{ t := 4, payload := le64enc 1 }] ++ [0, 0, 0]

/-- The cumulative effect of the child-update loop on the inode table. -/
def applyChildren : List (Nat × List Nat) → List Inode → List Inode
  | [], l => l
  | (i, p) :: rest, l =>
    applyChildren rest
      (updateAt i (fun ino => { ino with path := p, deleted := false }) l)

def inoC7 : Inode :=
  { inode_id := 1, path := [47, 97], mode := 0o40755, size := 0, ctime := 0,
    mtime := 0, atime := 0, deleted := false, extents := [],
    symlink_target := none, xattrs := [] }

def stC7 : FsState := { next_inode_id := 2, inodes := [inoC7] }

def dirC7 : Inode :=
  { inode_id := 1, path := [47, 97], mode := 0o40755, size := 0, ctime := 0,
    mtime := 0, atime := 0, deleted := false, extents := [],
    symlink_target := none, xattrs := [] }

def childC7 : Inode :=
  { inode_id := 2, path := [47, 97, 47, 99], mode := 0o100644, size := 2,
    ctime := 0, mtime := 0, atime := 0, deleted := false, extents := [],
    symlink_target := none, xattrs := [] }

def stC7w : FsState := { next_inode_id := 3, inodes := [dirC7, childC7] }

/-! ## Claim theorems -/

set_option maxRecDepth 8192


/-! ### C1: holes are not zero-filled and the return value is not capped by
`size - offset`

A file of size 110 whose single extent covers `[100, 110)` is read with
`size = 16` at `offset = 0` (a miniature of spec scenario S2).  The claim
requires 16 zero bytes in the buffer and a return value of 16; the source
walks the extents, finds no overlap it can place before the cap, copies
nothing, leaves the caller's buffer bytes (sentinel 0x55) untouched and
returns 0. -/




/-- C1: at the failing input (hole read, miniature of spec S2) the source
returns 0 with the caller's sentinel bytes untouched, not 16 zero bytes
capped by `size - offset` as the claim states. -/
theorem C1_hole_read_not_zero_filled :
    (appendfs_read stC1 dataC1 [47, 104] (List.replicate 16 0x55) 16 0 7).1 =
      Except.ok (0, List.replicate 16 0x55) ∧
    (appendfs_read stC1 dataC1 [47, 104] (List.replicate 16 0x55) 16 0 7).1 ≠
      Except.ok (16, List.replicate 16 0) := by
  exact ⟨by rfl, by decide⟩

/-! ### C2: overlapping extents are not resolved newest-first

Extents `[0, 8)` (bytes 0x11) then `[2, 6)` (bytes 0x22) overlap; reading 8
bytes at offset 0 (a miniature of spec scenario S3) must yield
`11 11 22 22 22 22 11 11` under "last flush wins".  The source copies the
whole first extent (reaching the size cap) and never consults the later one,
returning eight 0x11 bytes. -/




/-- C2: at the failing input (overlap read, miniature of spec S3) the source
returns the first extent's bytes for the whole range; the later extent never
wins on the overlap `[2, 6)`. -/
theorem C2_overlap_not_last_flush_wins :
    (appendfs_read stC2 dataC2 [47, 111] (List.replicate 8 0) 8 0 7).1 =
      Except.ok (8, List.replicate 8 0x11) ∧
    (appendfs_read stC2 dataC2 [47, 111] (List.replicate 8 0) 8 0 7).1 ≠
      Except.ok (8, [0x11, 0x11, 0x22, 0x22, 0x22, 0x22, 0x11, 0x11]) := by
  exact ⟨by rfl, by decide⟩

/-! ### helper lemmas -/

theorem updateAt_append_length (l : List Inode) (x : Inode) (f : Inode → Inode) :
    updateAt l.length f (l ++ [x]) = l ++ [f x] := by
  induction l with
  | nil => simp [updateAt]
  | cons a t ih => simp [updateAt, ih]

theorem normalize_path_idem (p : List Nat) :
    normalize_path (normalize_path p) = normalize_path p := by
  unfold normalize_path
  by_cases h : p.head? = some 47 <;> simp [h]

/-! ### C8: create_file does not mask the mode argument

The source sets `inode->mode = S_IFREG | mode` (appendfs.c:1084,1090) with no
`& 07777` mask, unlike `appendfs_mkdir` which does mask.  File-type bits in
the argument survive into the inode. -/

/-- C8 counterexample: creating `/f` with mode `0o40000` (`S_IFDIR`) in an
empty filesystem succeeds and leaves mode `0o140000`, not the claimed
`S_IFREG | (mode & 07777) = 0o100000`. -/
theorem C8_counterexample :
    (appendfs_create_file initState [47, 102] 0o40000 5 []).1 = Except.ok () ∧
    ((appendfs_create_file initState [47, 102] 0o40000 5 []).2.1.inodes.getD 0
      default).mode = 0o140000 ∧
    (0o140000 : Nat) ≠ S_IFREG ||| (0o40000 &&& 0o7777) := by
  exact ⟨by rfl, by rfl, by decide⟩

/-- C8 amended: a successful `create_file(path, mode)` leaves the created
inode (the freshly appended row) with mode `S_IFREG | mode`, with no masking
of any bits of the argument. -/
theorem C8_amended (st : FsState) (path : List Nat) (mode : Nat) (now : Int)
    (oracle : List Bool)
    (h : (appendfs_create_file st path mode now oracle).1 = Except.ok ()) :
    ∃ ino : Inode,
      (appendfs_create_file st path mode now oracle).2.1.inodes.getLast? = some ino ∧
      ino.mode = S_IFREG ||| mode ∧ ino.path = normalize_path path ∧
      ino.deleted = false := by
  cases hf : find_inode_by_path st (normalize_path path) with
  | some v => simp [appendfs_create_file, hf] at h
  | none =>
    cases hs : split_path (normalize_path path) with
    | error e => simp [appendfs_create_file, hf, hs] at h
    | ok pr =>
      obtain ⟨parent, nm⟩ := pr
      by_cases hp : parent_missing st parent
      · simp [appendfs_create_file, hf, hs, hp] at h
      · cases horacle : write_record oracle with
        | mk okb rest =>
          cases okb with
          | false => simp [appendfs_create_file, hf, hs, hp, horacle] at h
          | true =>
            refine ⟨⟨st.next_inode_id, normalize_path path, S_IFREG ||| mode, 0,
              now, now, now, false, [], none, []⟩, ?_, rfl, rfl, rfl⟩
            simp [appendfs_create_file, hf, hs, hp, horacle, create_inode,
              updateAt_append_length, normalize_path_idem]

/-- C8 witness: the amended theorem applied to creating `/f` with mode 0644
in the empty filesystem. -/
theorem C8_amended_witness :
    ∃ ino : Inode,
      (appendfs_create_file initState [47, 102] 0o644 5 []).2.1.inodes.getLast? =
        some ino ∧
      ino.mode = S_IFREG ||| 0o644 ∧ ino.path = normalize_path [47, 102] ∧
      ino.deleted = false :=
  C8_amended initState [47, 102] 0o644 5 [] (by rfl)

/-! ### C9: mkdirs performs no parent check -/

/-- C9: when no live inode exists at the path, `appendfs_mkdirs` allocates a
fresh directory inode and succeeds even though the parent has no live
directory inode, while `appendfs_mkdir` on the same arguments fails with
`ENOENT` and changes nothing. -/
theorem C9_mkdirs_no_parent_check (st : FsState) (path : List Nat) (mode : Nat)
    (now : Int) (parent nm : List Nat)
    (hnone : find_inode_by_path st path = none)
    (hsplit : split_path (normalize_path path) = Except.ok (parent, nm))
    (hparent : parent_missing st parent = true)
    (hne : path ≠ []) (hnr : path ≠ [47]) :
    (appendfs_mkdirs st path mode now []).1 = Except.ok () ∧
    (appendfs_mkdirs st path mode now []).2.1.inodes =
      st.inodes ++
        [{ inode_id := st.next_inode_id, path := normalize_path path,
           mode := S_IFDIR ||| mode, size := 0, ctime := now, mtime := now,
           atime := now, deleted := false, extents := [],
           symlink_target := none, xattrs := [] }] ∧
    (appendfs_mkdir st path mode now []).1 = Except.error ENOENT ∧
    (appendfs_mkdir st path mode now []).2.1 = st := by
  have hnorm : find_inode_by_path st (normalize_path path) = none := by
    unfold find_inode_by_path at hnone ⊢
    rw [normalize_path_idem]
    exact hnone
  refine ⟨?_, ?_, ?_, ?_⟩
  · simp [appendfs_mkdirs, hnone, create_inode, write_record]
  · simp [appendfs_mkdirs, hnone, create_inode, write_record]
  · simp [appendfs_mkdir, hne, hnr, hnorm, hsplit, hparent]
  · simp [appendfs_mkdir, hne, hnr, hnorm, hsplit, hparent]

/-- C9 witness: `mkdirs("/a/b")` in the empty filesystem (parent `/a` does
not exist) succeeds while `mkdir("/a/b")` fails with `ENOENT`. -/
theorem C9_witness :
    (appendfs_mkdirs initState [47, 97, 47, 98] 0o755 5 []).1 = Except.ok () ∧
    (appendfs_mkdirs initState [47, 97, 47, 98] 0o755 5 []).2.1.inodes =
      initState.inodes ++
        [{ inode_id := initState.next_inode_id, path := normalize_path [47, 97, 47, 98],
           mode := S_IFDIR ||| 0o755, size := 0, ctime := 5, mtime := 5,
           atime := 5, deleted := false, extents := [],
           symlink_target := none, xattrs := [] }] ∧
    (appendfs_mkdir initState [47, 97, 47, 98] 0o755 5 []).1 = Except.error ENOENT ∧
    (appendfs_mkdir initState [47, 97, 47, 98] 0o755 5 []).2.1 = initState :=
  C9_mkdirs_no_parent_check initState [47, 97, 47, 98] 0o755 5 [47, 97] [98]
    (by rfl) (by rfl) (by rfl) (by decide) (by decide)

/-! ### C10: a zero-sized write changes nothing -/

/-- C10: for every open file, buffer, offset and context, `write(file, buf, 0)`
returns 0 and leaves the context, the data log, the file handle (buffer
contents, `buffer_offset`, `buffer_used`, position, flags) unchanged, and
appends no record. -/
theorem C10_write_zero_is_noop (st : FsState) (dataLog : List Nat) (file : AFile)
    (buf : List Nat) (offset : Int) (now : Int) (oracle : List Bool) :
    appendfs_write st dataLog file buf 0 offset now oracle =
      (Except.ok 0, st, dataLog, file, []) := rfl

/-! ### C3: unlink and truncate do not roll back on a failed record append

`appendfs_unlink` tombstones the inode (appendfs.c:1316) before appending the
UNLINK record; `appendfs_truncate` sets the new size (appendfs.c:2031) before
appending the TRUNCATE record.  When the append fails both return failure
with the in-memory mutation still in place and no compensating record. -/



/-- C3 counterexample: unlinking `/f` with a failing record append returns
failure, yet the in-memory state differs from the pre-call state (the inode
is tombstoned) and no record of any kind was appended — neither branch of the
claimed alternative holds. -/
theorem C3_counterexample :
    (appendfs_unlink stC3 [47, 102] [false]).1 = Except.error EIO ∧
    (appendfs_unlink stC3 [47, 102] [false]).2.1 ≠ stC3 ∧
    (appendfs_unlink stC3 [47, 102] [false]).2.2 = [] := by
  exact ⟨by rfl, by decide, by rfl⟩

/-- C3 amended: on a failed metadata append, `unlink` keeps the tombstone and
`truncate` keeps the new size (extents untrimmed), both returning failure
with no record appended; the no-change-or-compensation discipline does not
hold for them (only the xattr operations restore the prior state). -/
theorem C3_amended :
    (∀ (st : FsState) (path : List Nat) (idx : Nat) (ino : Inode),
      find_inode_by_path st path = some (idx, ino) →
      S_ISDIR ino.mode = false →
      appendfs_unlink st path [false] =
        (Except.error EIO,
          { st with inodes := updateAt idx (fun i => { i with deleted := true }) st.inodes },
          [])) ∧
    (∀ (st : FsState) (path : List Nat) (size now : Int) (idx : Nat) (ino : Inode),
      find_inode_by_path st path = some (idx, ino) →
      (S_ISREG ino.mode || S_ISLNK ino.mode) = true →
      appendfs_truncate st path size now [false] =
        (Except.error EIO,
          { st with inodes := updateAt idx (fun _ => { ino with size := size }) st.inodes },
          [])) := by
  constructor
  · intro st path idx ino hfind hdir
    simp [appendfs_unlink, hfind, hdir, write_record]
  · intro st path size now idx ino hfind hty
    have hty2 : (!S_ISREG ino.mode && !S_ISLNK ino.mode) = false := by
      cases hr : S_ISREG ino.mode <;> cases hl : S_ISLNK ino.mode <;>
        simp [hr, hl] at hty ⊢
    simp [appendfs_truncate, hfind, hty2, write_record]

/-- C3 witness: the amended theorem applied to `/f` in `stC3` for both
operations. -/
theorem C3_amended_witness :
    appendfs_unlink stC3 [47, 102] [false] =
      (Except.error EIO,
        { stC3 with
            inodes := updateAt 0 (fun i => { i with deleted := true }) stC3.inodes },
        []) ∧
    appendfs_truncate stC3 [47, 102] 3 9 [false] =
      (Except.error EIO,
        { stC3 with inodes := updateAt 0 (fun _ => { inoC3 with size := 3 }) stC3.inodes },
        []) :=
  ⟨C3_amended.1 stC3 [47, 102] 0 inoC3 (by rfl) (by rfl),
   C3_amended.2 stC3 [47, 102] 3 9 0 inoC3 (by rfl) (by rfl)⟩

/-! ### lookup/update characterization lemmas (shared) -/

theorem updateAt_get? (f : Inode → Inode) (l : List Inode) (i j : Nat) :
    (updateAt i f l).get? j = if j = i then (l.get? j).map f else l.get? j := by
  induction l generalizing i j with
  | nil => simp [updateAt]
  | cons x t ih =>
    cases i with
    | zero =>
      cases j with
      | zero => simp [updateAt]
      | succ j => simp [updateAt]
    | succ i =>
      cases j with
      | zero => simp [updateAt]
      | succ j => simpa [updateAt] using ih i j

theorem updateAt_id (l : List Inode) (i : Nat) (x : Inode)
    (h : l.get? i = some x) : updateAt i (fun _ => x) l = l := by
  induction l generalizing i with
  | nil => simp [updateAt]
  | cons a t ih =>
    cases i with
    | zero => simp_all [updateAt]
    | succ i => simp_all [updateAt]

theorem find_inode_by_path_aux_shift (needle : List Nat) (k : Nat) (l : List Inode) :
    find_inode_by_path_aux needle k l =
      (find_inode_by_path_aux needle 0 l).map (fun p => (p.1 + k, p.2)) := by
  induction l generalizing k with
  | nil => simp [find_inode_by_path_aux]
  | cons x t ih =>
    by_cases h : (!x.deleted && pathMatch x.path needle) = true
    · simp [find_inode_by_path_aux, h]
    · rw [find_inode_by_path_aux, find_inode_by_path_aux, ih (k + 1), ih 1]
      simp only [h, if_false, Option.map_map]
      cases find_inode_by_path_aux needle 0 t with
      | none => simp
      | some p => simp [Function.comp]; omega

theorem find_inode_by_path_aux_get (needle : List Nat) (l : List Inode)
    (i : Nat) (ino : Inode)
    (h : find_inode_by_path_aux needle 0 l = some (i, ino)) :
    l.get? i = some ino ∧ ino.deleted = false ∧ pathMatch ino.path needle = true := by
  induction l generalizing i with
  | nil => simp [find_inode_by_path_aux] at h
  | cons x t ih =>
    by_cases hx : (!x.deleted && pathMatch x.path needle) = true
    · rw [find_inode_by_path_aux] at h
      simp only [hx, if_true, Option.some.injEq, Prod.mk.injEq] at h
      obtain ⟨h1, h2⟩ := h
      subst h1; subst h2
      simp only [Bool.and_eq_true, Bool.not_eq_eq_eq_not, Bool.not_true] at hx
      exact ⟨rfl, hx.1, hx.2⟩
    · rw [find_inode_by_path_aux] at h
      rw [find_inode_by_path_aux_shift needle 1 t] at h
      cases ht : find_inode_by_path_aux needle 0 t with
      | none => rw [ht] at h; simp [hx] at h
      | some p =>
        rw [ht] at h
        simp only [hx, Option.map_some', if_false, Bool.false_eq_true,
          Option.some.injEq, Prod.mk.injEq] at h
        have ht2 : find_inode_by_path_aux needle 0 t = some (p.1, ino) := by
          rw [ht, ← h.2]
        obtain ⟨hg, hd, hm⟩ := ih p.1 ht2
        have hi : i = p.1 + 1 := h.1.symm
        subst hi
        exact ⟨by simpa using hg, hd, hm⟩

/-! ### xattr list lemmas (for the rollback claim) -/

theorem find_xattr_aux_shift (name : List Nat) (k : Nat) (xs : List Xattr) :
    find_xattr_aux name k xs =
      (find_xattr_aux name 0 xs).map (fun p => (p.1 + k, p.2)) := by
  induction xs generalizing k with
  | nil => simp [find_xattr_aux]
  | cons x t ih =>
    by_cases h : (x.name == name) = true
    · simp [find_xattr_aux, h]
    · rw [find_xattr_aux, find_xattr_aux, ih (k + 1), ih 1]
      simp only [h, if_false, Bool.false_eq_true, Option.map_map]
      cases find_xattr_aux name 0 t with
      | none => simp
      | some p => simp [Function.comp]; omega

theorem find_xattr_aux_get (name : List Nat) (xs : List Xattr) (i : Nat) (x : Xattr)
    (h : find_xattr_aux name 0 xs = some (i, x)) :
    xs.get? i = some x ∧ (x.name == name) = true := by
  induction xs generalizing i with
  | nil => simp [find_xattr_aux] at h
  | cons y t ih =>
    by_cases hy : (y.name == name) = true
    · rw [find_xattr_aux] at h
      simp only [hy, if_true, Option.some.injEq, Prod.mk.injEq] at h
      obtain ⟨h1, h2⟩ := h
      subst h1
      rw [← h2]
      exact ⟨rfl, hy⟩
    · rw [find_xattr_aux] at h
      rw [find_xattr_aux_shift name 1 t] at h
      cases ht : find_xattr_aux name 0 t with
      | none => rw [ht] at h; simp [hy] at h
      | some p =>
        rw [ht] at h
        simp only [hy, Option.map_some', if_false, Bool.false_eq_true,
          Option.some.injEq, Prod.mk.injEq] at h
        have ht2 : find_xattr_aux name 0 t = some (p.1, x) := by rw [ht, ← h.2]
        obtain ⟨hg, hn⟩ := ih p.1 ht2
        have hi : i = p.1 + 1 := h.1.symm
        subst hi
        exact ⟨by simpa using hg, hn⟩

theorem find_xattr_aux_set (name : List Nat) (xs : List Xattr) (i : Nat)
    (x y : Xattr) (h : find_xattr_aux name 0 xs = some (i, x))
    (hy : (y.name == name) = true) :
    find_xattr_aux name 0 (xs.set i y) = some (i, y) := by
  induction xs generalizing i with
  | nil => simp [find_xattr_aux] at h
  | cons z t ih =>
    by_cases hz : (z.name == name) = true
    · rw [find_xattr_aux] at h
      simp only [hz, if_true, Option.some.injEq, Prod.mk.injEq] at h
      obtain ⟨h1, _⟩ := h
      subst h1
      simp [find_xattr_aux, hy]
    · rw [find_xattr_aux] at h
      rw [find_xattr_aux_shift name 1 t] at h
      cases ht : find_xattr_aux name 0 t with
      | none => rw [ht] at h; simp [hz] at h
      | some p =>
        rw [ht] at h
        simp only [hz, Option.map_some', if_false, Bool.false_eq_true,
          Option.some.injEq, Prod.mk.injEq] at h
        have ht2 : find_xattr_aux name 0 t = some (p.1, x) := by rw [ht, ← h.2]
        have hi : i = p.1 + 1 := h.1.symm
        subst hi
        have hset := ih p.1 ht2
        have hcons : (z :: t).set (p.1 + 1) y = z :: t.set p.1 y := rfl
        rw [hcons, find_xattr_aux]
        simp only [hz, if_false, Bool.false_eq_true]
        rw [find_xattr_aux_shift name 1 (t.set p.1 y), hset]
        rfl

theorem list_set_get_self {α : Type} (xs : List α) (i : Nat) (x : α)
    (h : xs.get? i = some x) : xs.set i x = xs := by
  induction xs generalizing i with
  | nil => simp at h
  | cons a t ih =>
    cases i with
    | zero => simp_all
    | succ i =>
      simp only [List.get?] at h
      simp [List.set, ih i h]

theorem find_xattr_aux_none (name : List Nat) (xs : List Xattr)
    (h : find_xattr_aux name 0 xs = none) :
    ∀ x ∈ xs, (x.name == name) = false := by
  induction xs with
  | nil => simp
  | cons y t ih =>
    rw [find_xattr_aux] at h
    by_cases hy : (y.name == name) = true
    · simp [hy] at h
    · rw [find_xattr_aux_shift name 1 t] at h
      intro x hx
      rcases List.mem_cons.mp hx with hx | hx
      · simp_all
      · cases ht : find_xattr_aux name 0 t with
        | some p => rw [ht] at h; simp [hy] at h
        | none => exact ih ht x hx

theorem removeFirstXattr_append (name v : List Nat) (xs : List Xattr)
    (h : ∀ x ∈ xs, (x.name == name) = false) :
    removeFirstXattr name (xs ++ [{ name := name, value := v }]) = xs := by
  induction xs with
  | nil => simp [removeFirstXattr]
  | cons y t ih =>
    have hy := h y (by simp)
    rw [List.cons_append, removeFirstXattr]
    simp only [hy, if_false, Bool.false_eq_true]
    rw [ih (fun x hx => h x (by simp [hx]))]

theorem find_xattr_aux_append (name v : List Nat) (xs : List Xattr)
    (h : ∀ x ∈ xs, (x.name == name) = false) :
    find_xattr_aux name 0 (xs ++ [{ name := name, value := v }]) =
      some (xs.length, { name := name, value := v }) := by
  induction xs with
  | nil => simp [find_xattr_aux]
  | cons y t ih =>
    have hy := h y (by simp)
    rw [List.cons_append, find_xattr_aux]
    simp only [hy, if_false, Bool.false_eq_true]
    rw [find_xattr_aux_shift]
    rw [ih (fun x hx => h x (by simp [hx]))]
    simp [Nat.add_comm]

theorem find_xattr_aux_none_intro (name : List Nat) (xs : List Xattr)
    (h : ∀ x ∈ xs, (x.name == name) = false) :
    find_xattr_aux name 0 xs = none := by
  induction xs with
  | nil => rfl
  | cons y t ih =>
    have hy := h y (by simp)
    rw [find_xattr_aux]
    simp only [hy, if_false, Bool.false_eq_true]
    rw [find_xattr_aux_shift, ih (fun x hx => h x (by simp [hx]))]
    rfl

theorem xlookup_find (name : List Nat) (xs : List Xattr) :
    xlookup name xs = (find_xattr_aux name 0 xs).map (fun p => p.2.value) := by
  induction xs with
  | nil => rfl
  | cons y t ih =>
    rw [xlookup, find_xattr_aux]
    by_cases hy : (y.name == name) = true
    · simp [hy]
    · simp only [hy, if_false, Bool.false_eq_true]
      rw [find_xattr_aux_shift, ih, Option.map_map]
      cases find_xattr_aux name 0 t <;> rfl

theorem xlookup_removeFirst_ne (name n : List Nat) (xs : List Xattr)
    (hne : n ≠ name) :
    xlookup n (removeFirstXattr name xs) = xlookup n xs := by
  induction xs with
  | nil => rfl
  | cons y t ih =>
    rw [removeFirstXattr]
    by_cases hy : (y.name == name) = true
    · have hyn : (y.name == n) = false := by
        have : y.name = name := by simpa using hy
        simp [this, Ne.symm hne]
      simp [hy, xlookup, hyn]
    · simp only [hy, if_false, Bool.false_eq_true]
      rw [xlookup, xlookup, ih]

theorem xlookup_append_ne (name n v : List Nat) (ys : List Xattr)
    (hne : n ≠ name) :
    xlookup n (ys ++ [{ name := name, value := v }]) = xlookup n ys := by
  induction ys with
  | nil => simp [xlookup, Ne.symm hne]
  | cons y t ih =>
    rw [List.cons_append, xlookup, xlookup]
    by_cases hy : (y.name == n) = true
    · simp [hy]
    · simp only [hy, if_false, Bool.false_eq_true]
      exact ih

theorem xlookup_append_self (name v : List Nat) (ys : List Xattr)
    (h : ∀ x ∈ ys, (x.name == name) = false) :
    xlookup name (ys ++ [{ name := name, value := v }]) = some v := by
  induction ys with
  | nil => simp [xlookup]
  | cons y t ih =>
    have hy := h y (by simp)
    rw [List.cons_append, xlookup]
    simp only [hy, if_false, Bool.false_eq_true]
    exact ih (fun x hx => h x (by simp [hx]))

theorem removeFirst_nodup_none (name : List Nat) (xs : List Xattr)
    (hnd : (xs.map Xattr.name).Nodup) :
    find_xattr_aux name 0 (removeFirstXattr name xs) = none := by
  induction xs with
  | nil => rfl
  | cons y t ih =>
    simp only [List.map_cons, List.nodup_cons] at hnd
    rw [removeFirstXattr]
    by_cases hy : (y.name == name) = true
    · have hyname : y.name = name := by simpa using hy
      simp only [hy, if_true]
      apply find_xattr_aux_none_intro
      intro x hx
      have : x.name ∈ t.map Xattr.name := List.mem_map_of_mem Xattr.name hx
      have hne : x.name ≠ y.name := fun he => hnd.1 (he ▸ this)
      simp [hyname ▸ hne]
    · simp only [hy, if_false, Bool.false_eq_true]
      rw [find_xattr_aux]
      simp only [hy, if_false, Bool.false_eq_true]
      rw [find_xattr_aux_shift, ih hnd.2]
      rfl

theorem set_xattr_internal_ok_some (ino : Inode) (name value : List Nat)
    (flags : Nat) (i : Nat) (x : Xattr) (ino1 : Inode)
    (hex : find_xattr ino name = some (i, x))
    (hset : set_xattr_internal ino name value flags = Except.ok ino1) :
    ino1 = { ino with xattrs := ino.xattrs.set i { x with value := value } } := by
  simp only [set_xattr_internal, hex] at hset
  split at hset
  · exact absurd hset (by simp)
  · split at hset
    · exact absurd hset (by simp)
    · simpa using hset.symm

theorem set_xattr_internal_ok_none (ino : Inode) (name value : List Nat)
    (flags : Nat) (ino1 : Inode)
    (hex : find_xattr ino name = none)
    (hset : set_xattr_internal ino name value flags = Except.ok ino1) :
    ino1 = { ino with xattrs := ino.xattrs ++ [{ name := name, value := value }] } := by
  simp only [set_xattr_internal, hex] at hset
  split at hset
  · exact absurd hset (by simp)
  · split at hset
    · exact absurd hset (by simp)
    · simpa using hset.symm

theorem set_xattr_internal_replace (ino : Inode) (name v : List Nat) (i : Nat)
    (x : Xattr) (hex : find_xattr ino name = some (i, x)) :
    set_xattr_internal ino name v XATTR_REPLACE =
      Except.ok { ino with xattrs := ino.xattrs.set i { x with value := v } } := by
  simp [set_xattr_internal, hex, XATTR_REPLACE, XATTR_CREATE]

theorem set_xattr_internal_create_none (ino : Inode) (name v : List Nat)
    (hex : find_xattr ino name = none) :
    set_xattr_internal ino name v XATTR_CREATE =
      Except.ok { ino with xattrs := ino.xattrs ++ [{ name := name, value := v }] } := by
  simp [set_xattr_internal, hex, XATTR_REPLACE, XATTR_CREATE]

theorem remove_xattr_internal_some (ino : Inode) (name : List Nat)
    (h : (find_xattr ino name).isSome = true) :
    remove_xattr_internal ino name =
      Except.ok { ino with xattrs := removeFirstXattr name ino.xattrs } := by
  simp [remove_xattr_internal, h]

/-! ### C6: xattr mutations restore the prior state on a failed record append -/

/-- C6: for `setxattr` on a live inode, when the in-memory mutation succeeds
but the metadata append fails, the snapshot is restored and the call returns
failure with the context state exactly as before and nothing appended; for
`removexattr` (attribute present, attribute names duplicate-free as every
reachable state has them), the removed attribute is re-inserted with its old
value, so the name-to-value mapping is unchanged on error. -/
theorem C6_xattr_rollback :
    (∀ (st : FsState) (path name value : List Nat) (flags : Nat)
        (idx : Nat) (ino ino1 : Inode),
      find_inode_by_path st path = some (idx, ino) →
      set_xattr_internal ino name value flags = Except.ok ino1 →
      appendfs_setxattr st path name value flags [false] =
        (Except.error EIO, st, [])) ∧
    (∀ (st : FsState) (path name : List Nat) (idx j : Nat) (ino : Inode)
        (attr : Xattr),
      find_inode_by_path st path = some (idx, ino) →
      find_xattr ino name = some (j, attr) →
      (ino.xattrs.map Xattr.name).Nodup →
      ∃ ino2 : Inode,
        appendfs_removexattr st path name [false] =
          (Except.error EIO,
            { st with inodes := updateAt idx (fun _ => ino2) st.inodes }, []) ∧
        ∀ n, xlookup n ino2.xattrs = xlookup n ino.xattrs) := by
  constructor
  · intro st path name value flags idx ino ino1 hfind hset
    obtain ⟨hget, -, -⟩ := find_inode_by_path_aux_get _ _ _ _ hfind
    have hupd : updateAt idx (fun _ => ino) st.inodes = st.inodes :=
      updateAt_id st.inodes idx ino hget
    cases hex : find_xattr ino name with
    | some p =>
      obtain ⟨i, x⟩ := p
      obtain ⟨hgx, hnx⟩ := find_xattr_aux_get name ino.xattrs i x hex
      have hino1 := set_xattr_internal_ok_some ino name value flags i x ino1 hex hset
      -- the rollback re-sets the old value at the same slot
      have hfind1 : find_xattr { ino with xattrs := ino.xattrs.set i { x with value := value } } name =
          some (i, { x with value := value }) :=
        find_xattr_aux_set name ino.xattrs i x { x with value := value } hex hnx
      have hroll := set_xattr_internal_replace
        { ino with xattrs := ino.xattrs.set i { x with value := value } }
        name x.value i { x with value := value } hfind1
      have hback : (ino.xattrs.set i { x with value := value }).set i
          { x with value := x.value } = ino.xattrs := by
        rw [List.set_set]
        exact list_set_get_self ino.xattrs i x hgx
      subst hino1
      simp only [appendfs_setxattr, hfind, hex, hset, write_record]
      simp [hroll, hback, hupd]
    | none =>
      have hino1 := set_xattr_internal_ok_none ino name value flags ino1 hex hset
      have hnomatch := find_xattr_aux_none name ino.xattrs hex
      have happ := find_xattr_aux_append name value ino.xattrs hnomatch
      have hsome : (find_xattr { ino with
          xattrs := ino.xattrs ++ [{ name := name, value := value }] } name).isSome = true := by
        unfold find_xattr
        simp [happ]
      have hroll := remove_xattr_internal_some
        { ino with xattrs := ino.xattrs ++ [{ name := name, value := value }] } name hsome
      have hback : removeFirstXattr name
          (ino.xattrs ++ [{ name := name, value := value }]) = ino.xattrs :=
        removeFirstXattr_append name value ino.xattrs hnomatch
      subst hino1
      simp only [appendfs_setxattr, hfind, hex, hset, write_record]
      simp [hroll, hback, hupd]
  · intro st path name idx j ino attr hfind hattr hnd
    have hsome : (find_xattr ino name).isSome = true := by simp [hattr]
    have hrm := remove_xattr_internal_some ino name hsome
    have hrmnone : find_xattr { ino with xattrs := removeFirstXattr name ino.xattrs } name = none :=
      removeFirst_nodup_none name ino.xattrs hnd
    have hroll := set_xattr_internal_create_none
      { ino with xattrs := removeFirstXattr name ino.xattrs } name attr.value hrmnone
    refine ⟨{ ino with xattrs := removeFirstXattr name ino.xattrs ++
        [{ name := name, value := attr.value }] }, ?_, ?_⟩
    · simp [appendfs_removexattr, hfind, hattr, hrm, write_record, hroll]
    · intro n
      by_cases hn : n = name
      · subst hn
        have hpre := find_xattr_aux_none n _ hrmnone
        rw [xlookup_append_self n attr.value _ hpre]
        have hattr2 : find_xattr_aux n 0 ino.xattrs = some (j, attr) := hattr
        rw [xlookup_find, hattr2]
        rfl
      · rw [xlookup_append_ne name n attr.value _ hn,
          xlookup_removeFirst_ne name n ino.xattrs hn]



/-- C6 witness: overwriting and removing xattr `k` on `/f` with a failing
record append, via the rollback theorem at concrete inputs. -/
theorem C6_witness :
    appendfs_setxattr stC6 [47, 102] [107] [119, 119] 0 [false] =
      (Except.error EIO, stC6, []) ∧
    ∃ ino2 : Inode,
      appendfs_removexattr stC6 [47, 102] [107] [false] =
        (Except.error EIO,
          { stC6 with inodes := updateAt 0 (fun _ => ino2) stC6.inodes }, []) ∧
      ∀ n, xlookup n ino2.xattrs = xlookup n inoC6.xattrs :=
  ⟨C6_xattr_rollback.1 stC6 [47, 102] [107] [119, 119] 0 0 inoC6
      { inoC6 with xattrs := [{ name := [107], value := [119, 119] }] }
      (by rfl) (by rfl),
   C6_xattr_rollback.2 stC6 [47, 102] [107] 0 0 inoC6
      { name := [107], value := [118] } (by rfl) (by rfl) (by decide)⟩

/-! ### replay lemmas (CRC bound, codec roundtrip, fuel irrelevance) -/

theorem crc32_round_lt (c : Nat) (h : c < 4294967296) :
    crc32_round c < 4294967296 := by
  unfold crc32_round
  split
  · have h1 : (0xedb88320 : Nat) < 2 ^ 32 := by norm_num
    have h2 : c / 2 < 2 ^ 32 := lt_of_le_of_lt (Nat.div_le_self c 2) (by simpa using h)
    have := Nat.xor_lt_two_pow h1 h2
    simpa using this
  · exact lt_of_le_of_lt (Nat.div_le_self c 2) h

theorem crc32_rounds_lt (n c : Nat) (h : c < 4294967296) :
    crc32_rounds n c < 4294967296 := by
  induction n generalizing c with
  | zero => exact h
  | succ n ih => exact ih (crc32_round c) (crc32_round_lt c h)

theorem crc_table_lt (i : Nat) (h : i < 4294967296) : crc_table i < 4294967296 :=
  crc32_rounds_lt 8 i h

theorem crc32_step_lt (c b : Nat) (h : c < 4294967296) :
    crc32_step c b < 4294967296 := by
  unfold crc32_step
  have h1 : crc_table ((c ^^^ b) % 256) < 2 ^ 32 := by
    have : (c ^^^ b) % 256 < 4294967296 :=
      lt_trans (Nat.mod_lt _ (by norm_num)) (by norm_num)
    simpa using crc_table_lt _ this
  have h2 : c / 256 < 2 ^ 32 :=
    lt_of_le_of_lt (Nat.div_le_self c 256) (by simpa using h)
  have := Nat.xor_lt_two_pow h1 h2
  simpa using this

theorem crc32_lt (data : List Nat) : appendfs_crc32 data < 4294967296 := by
  unfold appendfs_crc32
  have hfold : data.foldl crc32_step 0xffffffff < 4294967296 := by
    have : ∀ (l : List Nat) (acc : Nat), acc < 4294967296 →
        l.foldl crc32_step acc < 4294967296 := by
      intro l
      induction l with
      | nil => intro acc h; simpa using h
      | cons b t ih => intro acc h; exact ih (crc32_step acc b) (crc32_step_lt acc b h)
    exact this data 0xffffffff (by norm_num)
  have h1 : (0xffffffff : Nat) < 2 ^ 32 := by norm_num
  have := Nat.xor_lt_two_pow (by simpa using hfold) h1
  simpa using this

theorem le32_roundtrip (n : Nat) (h : n < 4294967296) :
    le32dec (n % 256) (n / 256 % 256) (n / 65536 % 256) (n / 16777216 % 256) = n := by
  unfold le32dec
  omega

theorem replayLoop_short : ∀ (fuel : Nat) (s : FsState) (bytes : List Nat),
    bytes.length < 9 → replayLoop fuel s bytes = (s, 0)
  | 0, _, _, _ => rfl
  | _ + 1, _, [], _ => rfl
  | _ + 1, _, [_], _ => rfl
  | _ + 1, _, [_, _], _ => rfl
  | _ + 1, _, [_, _, _], _ => rfl
  | _ + 1, _, [_, _, _, _], _ => rfl
  | _ + 1, _, [_, _, _, _, _], _ => rfl
  | _ + 1, _, [_, _, _, _, _, _], _ => rfl
  | _ + 1, _, [_, _, _, _, _, _, _], _ => rfl
  | _ + 1, _, [_, _, _, _, _, _, _, _], _ => rfl
  | _ + 1, _, _ :: _ :: _ :: _ :: _ :: _ :: _ :: _ :: _ :: _, hlen => by
    simp at hlen
    omega

theorem replayLoop_fuel : ∀ (f1 f2 : Nat) (s : FsState) (bytes : List Nat),
    bytes.length < f1 → bytes.length < f2 →
    replayLoop f1 s bytes = replayLoop f2 s bytes := by
  intro f1
  induction f1 with
  | zero => intro f2 s bytes h1; omega
  | succ k ih =>
    intro f2 s bytes h1 h2
    by_cases hshort : bytes.length < 9
    · rw [replayLoop_short (k + 1) s bytes hshort, replayLoop_short f2 s bytes hshort]
    · cases f2 with
      | zero => omega
      | succ m =>
        rcases bytes with _ | ⟨t, _ | ⟨a, _ | ⟨b, _ | ⟨c, _ | ⟨d, _ | ⟨e, _ | ⟨f, _ |
          ⟨g, _ | ⟨h, rest⟩⟩⟩⟩⟩⟩⟩⟩⟩
        · simp at hshort
        · simp at hshort
        · simp at hshort
        · simp at hshort
        · simp at hshort
        · simp at hshort
        · simp at hshort
        · simp at hshort
        · simp at hshort
        · rw [replayLoop, replayLoop]
          by_cases hlen : rest.length < le32dec a b c d
          · simp only [hlen, if_true]
          · simp only [hlen, if_false]
            have hdrop : (rest.drop (le32dec a b c d)).length < k := by
              have := List.length_drop (le32dec a b c d) rest
              simp at h1
              omega
            have hdrop2 : (rest.drop (le32dec a b c d)).length < m := by
              have := List.length_drop (le32dec a b c d) rest
              simp at h2
              omega
            by_cases hcrc : appendfs_crc32 (rest.take (le32dec a b c d)) = le32dec e f g h
            · simp only [hcrc, if_true]
              rw [ih m _ _ hdrop hdrop2]
            · simp only [hcrc, if_false]
              rw [ih m _ _ hdrop hdrop2]


theorem replayRun_skip (s : FsState) (t : Nat) (payload : List Nat) (chk : Nat)
    (rest : List Nat) (hlen : payload.length < 4294967296)
    (hchk : chk < 4294967296) (hbad : appendfs_crc32 payload ≠ chk) :
    replayRun s (rawFrame t payload chk ++ rest) =
      ((replayRun s rest).1, 9 + payload.length + (replayRun s rest).2) := by
  unfold replayRun rawFrame le32enc
  simp only [List.cons_append, List.append_assoc, List.nil_append,
    List.length_cons, List.length_append, List.length_nil]
  rw [replayLoop]
  rw [le32_roundtrip payload.length hlen, le32_roundtrip chk hchk]
  have hnotlt : ¬ (payload ++ rest).length < payload.length := by
    simp [List.length_append]
  simp only [hnotlt, if_false, List.take_left, List.drop_left]
  simp only [hbad, if_false]
  have hfuel := replayLoop_fuel (payload.length + rest.length + 9)
    (rest.length + 1) s rest (by omega) (by omega)
  rw [hfuel]

theorem encodeRecord_eq_rawFrame (r : MRec) :
    encodeRecord r = rawFrame r.t r.payload (appendfs_crc32 r.payload) := rfl

theorem replayRun_apply (s : FsState) (r : MRec) (rest : List Nat)
    (hlen : r.payload.length < 4294967296) :
    replayRun s (encodeRecord r ++ rest) =
      ((replayRun (applyRecord s r.t r.payload) rest).1,
        9 + r.payload.length + (replayRun (applyRecord s r.t r.payload) rest).2) := by
  rw [encodeRecord_eq_rawFrame]
  unfold replayRun rawFrame le32enc
  simp only [List.cons_append, List.append_assoc, List.nil_append,
    List.length_cons, List.length_append, List.length_nil]
  rw [replayLoop]
  rw [le32_roundtrip r.payload.length hlen,
    le32_roundtrip (appendfs_crc32 r.payload) (crc32_lt r.payload)]
  have hnotlt : ¬ (r.payload ++ rest).length < r.payload.length := by
    simp [List.length_append]
  simp only [hnotlt, if_false, List.take_left, List.drop_left, if_pos rfl]
  have hfuel := replayLoop_fuel (r.payload.length + rest.length + 9)
    (rest.length + 1) (applyRecord s r.t r.payload) rest (by omega) (by omega)
  rw [hfuel]
  simp


theorem encodeRecord_length (r : MRec) :
    (encodeRecord r).length = 9 + r.payload.length := by
  simp [encodeRecord, le32enc]
  omega

theorem replayRun_records (rs : List MRec) (s : FsState) (rest : List Nat)
    (hWF : ∀ r ∈ rs, r.payload.length < 4294967296) :
    replayRun s (encodeRecords rs ++ rest) =
      ((replayRun (replayState s rs) rest).1,
        (encodeRecords rs).length + (replayRun (replayState s rs) rest).2) := by
  induction rs generalizing s with
  | nil => simp [encodeRecords, replayState]
  | cons r rs ih =>
    have hcons : encodeRecords (r :: rs) = encodeRecord r ++ encodeRecords rs := rfl
    rw [hcons, List.append_assoc]
    rw [replayRun_apply s r _ (hWF r (by simp))]
    rw [ih (applyRecord s r.t r.payload) (fun q hq => hWF q (by simp [hq]))]
    have hst : replayState s (r :: rs) = replayState (applyRecord s r.t r.payload) rs := rfl
    rw [← hst]
    simp only [Prod.mk.injEq]
    constructor
    · trivial
    · simp [List.length_append, encodeRecord_length]
      omega

/-! ### C5: a CRC-mismatched record is skipped; all other records still apply -/

/-- C5: replaying any log consisting of well-formed records around one frame
whose stored checksum does not match the CRC32 of its payload produces
exactly the state obtained by replaying the log without that frame: the bad
record is skipped and every preceding and following record is still applied. -/
theorem C5_crc_mismatch_skips_one_record (pre post : List MRec) (t : Nat)
    (payload : List Nat) (chk : Nat)
    (hpre : ∀ r ∈ pre, r.payload.length < 4294967296)
    (_hpost : ∀ r ∈ post, r.payload.length < 4294967296)
    (hlen : payload.length < 4294967296) (hchk : chk < 4294967296)
    (hbad : appendfs_crc32 payload ≠ chk) :
    (replay_metadata
        (encodeRecords pre ++ (rawFrame t payload chk ++ encodeRecords post))).1 =
      (replay_metadata (encodeRecords pre ++ encodeRecords post)).1 := by
  have h1 : ∀ bytes, (replay_metadata bytes).1 = (replayRun initState bytes).1 :=
    fun _ => rfl
  rw [h1, h1]
  rw [replayRun_records pre initState _ hpre, replayRun_records pre initState _ hpre]
  rw [replayRun_skip (replayState initState pre) t payload chk _ hlen hchk hbad]

/-- C5 witness: an UNLINK record for inode 1, then a frame with payload `[0]`
and checksum 0 (CRC32 of `[0]` is not 0), then a TRUNCATE record; replay
equals replay of just the two good records. -/
theorem C5_witness :
    (replay_metadata
        (encodeRecords [{ t := 4, payload := le64enc 1 }] ++
          (rawFrame 2 [0] 0 ++
            encodeRecords [{ t := 3, payload := le64enc 1 ++ le64enc 5 }]))).1 =
      (replay_metadata
        (encodeRecords [{ t := 4, payload := le64enc 1 }] ++
          encodeRecords [{ t := 3, payload := le64enc 1 ++ le64enc 5 }])).1 :=
  C5_crc_mismatch_skips_one_record
    [{ t := 4, payload := le64enc 1 }]
    [{ t := 3, payload := le64enc 1 ++ le64enc 5 }]
    2 [0] 0 (by decide) (by decide) (by decide) (by decide) (by decide)

/-! ### C4: the log is not truncated after replay; appends start at raw EOF -/


/-- C4 counterexample: a log holding one valid 17-byte UNLINK record followed
by a 3-byte torn header.  The last successfully read record boundary is 17,
but after replay appends begin at the raw end of file (offset 20), not at the
boundary — the log is not truncated. -/
theorem C4_counterexample :
    lastBoundary tornC4 = 17 ∧ (replay_metadata tornC4).2 = 20 ∧
    (replay_metadata tornC4).2 ≠ lastBoundary tornC4 := by
  refine ⟨by decide, by rfl, by decide⟩

/-- C4 amended: replay never truncates the metadata log; it stops consuming at
the last record boundary but then seeks to end-of-file, so subsequent appends
begin at the raw end (boundary plus the torn tail), not at the boundary. -/
theorem C4_amended_no_truncation (recs : List MRec) (tail : List Nat)
    (hWF : ∀ r ∈ recs, r.payload.length < 4294967296)
    (htail : tail.length < 9) :
    lastBoundary (encodeRecords recs ++ tail) = (encodeRecords recs).length ∧
    (replay_metadata (encodeRecords recs ++ tail)).2 =
      (encodeRecords recs).length + tail.length := by
  constructor
  · have h2 : lastBoundary (encodeRecords recs ++ tail) =
        (replayRun initState (encodeRecords recs ++ tail)).2 := rfl
    rw [h2, replayRun_records recs initState tail hWF]
    have hshort : replayRun (replayState initState recs) tail =
        (replayState initState recs, 0) :=
      replayLoop_short _ _ _ htail
    rw [hshort]
    simp
  · simp [replay_metadata, List.length_append]

/-- C4 witness: the amended theorem at the concrete torn log (one UNLINK
record and a 3-byte tail): boundary 17, append position 17 + 3. -/
theorem C4_amended_witness :
    lastBoundary (encodeRecords [{ t := 4, payload := le64enc 1 }] ++ [0, 0, 0]) =
      (encodeRecords [{ t := 4, payload := le64enc 1 }]).length ∧
    (replay_metadata
        (encodeRecords [{ t := 4, payload := le64enc 1 }] ++ [0, 0, 0])).2 =
      (encodeRecords [{ t := 4, payload := le64enc 1 }]).length + [0, 0, 0].length :=
  C4_amended_no_truncation [{ t := 4, payload := le64enc 1 }] [0, 0, 0]
    (by decide) (by decide)

/-! ### rename characterization lemmas -/

theorem normalize_path_of_slash (p : List Nat) (h : p.head? = some 47) :
    normalize_path p = p := by
  simp [normalize_path, h]

theorem pathMatch_eq (stored needle : List Nat) (hs : stored.head? = some 47)
    (hn : needle.head? = some 47) (h : pathMatch stored needle = true) :
    stored = needle := by
  unfold pathMatch at h
  simp only [hs, hn] at h
  simpa using h

theorem collectChildrenAux_lb (fromIdx : Nat) (fromN toN : List Nat) :
    ∀ (k : Nat) (l : List Inode) (q : Nat × List Nat),
      q ∈ collectChildrenAux fromIdx fromN toN k l → k ≤ q.1 := by
  intro k l
  induction l generalizing k with
  | nil => intro q hq; simp [collectChildrenAux] at hq
  | cons ino rest ih =>
    intro q hq
    rw [collectChildrenAux] at hq
    by_cases h1 : (k == fromIdx || ino.deleted) = true
    · simp only [h1, if_true] at hq
      exact le_trans (Nat.le_succ k) (ih (k + 1) q hq)
    · simp only [h1, if_false, Bool.false_eq_true] at hq
      by_cases h2 : childCond fromN ino = true
      · simp only [h2, if_true, List.mem_cons] at hq
        rcases hq with hq | hq
        · subst hq; exact le_refl k
        · exact le_trans (Nat.le_succ k) (ih (k + 1) q hq)
      · simp only [h2, if_false, Bool.false_eq_true] at hq
        exact le_trans (Nat.le_succ k) (ih (k + 1) q hq)

theorem collectChildrenAux_mem (fromIdx : Nat) (fromN toN : List Nat) :
    ∀ (k : Nat) (l : List Inode) (i : Nat) (p : List Nat),
      ((i, p) ∈ collectChildrenAux fromIdx fromN toN k l ↔
        ∃ j ino0, l.get? j = some ino0 ∧ i = k + j ∧ i ≠ fromIdx ∧
          ino0.deleted = false ∧ childCond fromN ino0 = true ∧
          p = toN ++ ino0.path.drop fromN.length) := by
  intro k l
  induction l generalizing k with
  | nil => intro i p; simp [collectChildrenAux]
  | cons ino rest ih =>
    intro i p
    rw [collectChildrenAux]
    constructor
    · intro hq
      by_cases h1 : (k == fromIdx || ino.deleted) = true
      · simp only [h1, if_true] at hq
        obtain ⟨j, ino0, hg, hi, hnf, hd, hc, hp⟩ := (ih (k + 1) i p).mp hq
        exact ⟨j + 1, ino0, by simpa using hg, by omega, hnf, hd, hc, hp⟩
      · simp only [h1, if_false, Bool.false_eq_true] at hq
        by_cases h2 : childCond fromN ino = true
        · simp only [h2, if_true, List.mem_cons] at hq
          rcases hq with hq | hq
          · obtain ⟨hq1, hq2⟩ := Prod.mk.injEq .. ▸ hq
            refine ⟨0, ino, by simp, by omega, ?_, ?_, h2, by simpa using hq2⟩
            · subst hq1
              simp only [Bool.or_eq_true, beq_iff_eq] at h1
              omega
            · simp only [Bool.or_eq_true] at h1
              push_neg at h1
              simpa using h1.2
          · obtain ⟨j, ino0, hg, hi, hnf, hd, hc, hp⟩ := (ih (k + 1) i p).mp hq
            exact ⟨j + 1, ino0, by simpa using hg, by omega, hnf, hd, hc, hp⟩
        · simp only [h2, if_false, Bool.false_eq_true] at hq
          obtain ⟨j, ino0, hg, hi, hnf, hd, hc, hp⟩ := (ih (k + 1) i p).mp hq
          exact ⟨j + 1, ino0, by simpa using hg, by omega, hnf, hd, hc, hp⟩
    · rintro ⟨j, ino0, hg, hi, hnf, hd, hc, hp⟩
      cases j with
      | zero =>
        have hino : ino = ino0 := by simpa using hg
        subst hino
        have hknf : (k == fromIdx) = false := by
          simp only [beq_eq_false_iff_ne]
          omega
        simp only [hknf, hd, Bool.or_self, Bool.false_eq_true,
          if_false, hc, if_true, List.mem_cons]
        left
        rw [Prod.mk.injEq]
        exact ⟨by omega, hp⟩
      | succ j =>
        have hmem : (i, p) ∈ collectChildrenAux fromIdx fromN toN (k + 1) rest :=
          (ih (k + 1) i p).mpr ⟨j, ino0, by simpa using hg, by omega, hnf, hd, hc, hp⟩
        by_cases h1 : (k == fromIdx || ino.deleted) = true
        · simp only [h1, if_true]; exact hmem
        · simp only [h1, if_false, Bool.false_eq_true]
          by_cases h2 : childCond fromN ino = true
          · simp only [h2, if_true, List.mem_cons]; right; exact hmem
          · simp only [h2, if_false, Bool.false_eq_true]; exact hmem

theorem collectChildrenAux_nodup (fromIdx : Nat) (fromN toN : List Nat) :
    ∀ (k : Nat) (l : List Inode),
      (collectChildrenAux fromIdx fromN toN k l).Pairwise (fun a b => a.1 ≠ b.1) := by
  intro k l
  induction l generalizing k with
  | nil => simp [collectChildrenAux]
  | cons ino rest ih =>
    rw [collectChildrenAux]
    by_cases h1 : (k == fromIdx || ino.deleted) = true
    · simp only [h1, if_true]; exact ih (k + 1)
    · simp only [h1, if_false, Bool.false_eq_true]
      by_cases h2 : childCond fromN ino = true
      · simp only [h2, if_true]
        refine List.Pairwise.cons ?_ (ih (k + 1))
        intro q hq
        have := collectChildrenAux_lb fromIdx fromN toN (k + 1) rest q hq
        simp only
        omega
      · simp only [h2, if_false, Bool.false_eq_true]; exact ih (k + 1)

theorem find?_fst_of_mem (l : List (Nat × List Nat)) (i : Nat) (p : List Nat)
    (hnd : l.Pairwise (fun a b => a.1 ≠ b.1)) (hmem : (i, p) ∈ l) :
    l.find? (fun c => c.1 == i) = some (i, p) := by
  induction l with
  | nil => simp at hmem
  | cons q rest ih =>
    rcases List.mem_cons.mp hmem with hq | hq
    · subst hq
      simp [List.find?]
    · have hne : q.1 ≠ i := by
        have := (List.pairwise_cons.mp hnd).1 (i, p) hq
        simpa using this
      rw [List.find?_cons_of_neg _ (by simpa using hne)]
      exact ih (List.pairwise_cons.mp hnd).2 hq


theorem renameChildrenLoop_ok :
    ∀ (children : List (Nat × List Nat)) (inodes : List Inode) (frames : List MRec),
      (renameChildrenLoop children inodes [] frames).1 = Except.ok () ∧
      (renameChildrenLoop children inodes [] frames).2.1 =
        applyChildren children inodes ∧
      ∃ tailRecs : List MRec,
        (renameChildrenLoop children inodes [] frames).2.2 = frames ++ tailRecs ∧
        ∀ fr ∈ tailRecs, fr.t = RT_RENAME := by
  intro children
  induction children with
  | nil =>
    intro inodes frames
    exact ⟨rfl, rfl, [], by simp [renameChildrenLoop], by simp⟩
  | cons c rest ih =>
    intro inodes frames
    obtain ⟨i, p⟩ := c
    rw [renameChildrenLoop]
    simp only [write_record, if_true]
    obtain ⟨h1, h2, tailRecs, h3, h4⟩ := ih
      (updateAt i (fun ino => { ino with path := p, deleted := false }) inodes)
      (frames ++ [rename_record (inodes.getD i default) p])
    refine ⟨h1, by rw [h2]; rfl, rename_record (inodes.getD i default) p :: tailRecs, ?_, ?_⟩
    · rw [h3]
      simp
    · intro fr hfr
      rcases List.mem_cons.mp hfr with hfr | hfr
      · subst hfr; rfl
      · exact h4 fr hfr

theorem applyChildren_get (children : List (Nat × List Nat)) (l : List Inode)
    (i : Nat) (hnd : children.Pairwise (fun a b => a.1 ≠ b.1)) :
    (applyChildren children l).get? i =
      match children.find? (fun c => c.1 == i) with
      | some q => (l.get? i).map (fun ino => { ino with path := q.2, deleted := false })
      | none => l.get? i := by
  induction children generalizing l with
  | nil => simp [applyChildren, List.find?]
  | cons c rest ih =>
    obtain ⟨j, p⟩ := c
    rw [applyChildren]
    rw [ih _ (List.pairwise_cons.mp hnd).2]
    by_cases hji : j = i
    · subst hji
      have hnone : rest.find? (fun c => c.1 == j) = none := by
        rw [List.find?_eq_none]
        intro q hq
        have hne := (List.pairwise_cons.mp hnd).1 q hq
        simp only [beq_iff_eq]
        exact fun h => hne h.symm
      rw [List.find?_cons_of_pos _ (by simp)]
      rw [hnone]
      rw [updateAt_get? _ l j j]
      simp
    · rw [List.find?_cons_of_neg _ (by simpa using hji)]
      have hg : (updateAt j (fun ino => { ino with path := p, deleted := false }) l).get? i =
          l.get? i := by
        rw [updateAt_get? _ l j i]
        exact if_neg (fun hcon => hji hcon.symm)
      rw [hg]

theorem updateAt_length (i : Nat) (f : Inode → Inode) (l : List Inode) :
    (updateAt i f l).length = l.length := by
  induction l generalizing i with
  | nil => rfl
  | cons x t ih =>
    cases i with
    | zero => simp [updateAt]
    | succ i => simp [updateAt, ih i]

theorem nested_prefix_impossible (A B suffix : List Nat)
    (h1 : ¬ (A ++ [47]).isPrefixOf B = true) (h2 : ¬ B.isPrefixOf A = true)
    (h : (A ++ [47]).isPrefixOf (B ++ suffix) = true) : False := by
  rw [List.isPrefixOf_iff_prefix] at h1 h2 h
  by_cases hl : A.length + 1 ≤ B.length
  · apply h1
    exact List.prefix_of_prefix_length_le h (List.prefix_append B suffix)
      (by simpa using hl)
  · apply h2
    have hBA1 : B <+: A ++ [47] :=
      List.prefix_of_prefix_length_le (List.prefix_append B suffix) h
        (by simp [List.length_append]; omega)
    exact List.prefix_of_prefix_length_le hBA1 (List.prefix_append A [47])
      (by omega)

theorem get?_append_slash (A : List Nat) (rest : List Nat) :
    (A ++ 47 :: rest).get? A.length = some 47 := by
  rw [List.get?_append_right (le_refl A.length)]
  simp

theorem pathIsPrefix_extend (A rest : List Nat) :
    pathIsPrefix (A ++ 47 :: rest) A = true := by
  unfold pathIsPrefix
  have hpre : A.isPrefixOf (A ++ 47 :: rest) = true := by
    rw [List.isPrefixOf_iff_prefix]
    exact List.prefix_append A (47 :: rest)
  simp only [hpre, Bool.not_true, Bool.false_eq_true, if_false]
  by_cases h0 : A.length = 0
  · simp [h0]
  · simp only [h0, if_false]
    by_cases hlast : (A.getLast? == some 47) = true
    · simp [hlast]
    · simp only [hlast, Bool.false_eq_true, if_false]
      rw [get?_append_slash]
      simp

theorem childCond_extend (A rest : List Nat) (ino : Inode)
    (hpath : ino.path = A ++ 47 :: rest) : childCond A ino = true := by
  unfold childCond
  rw [hpath]
  simp only [pathIsPrefix_extend, get?_append_slash, Bool.true_and]
  simp [List.length_append]

theorem prefix_slash_shape (A path : List Nat)
    (h : (A ++ [47]).isPrefixOf path = true) :
    ∃ rest, path = A ++ 47 :: rest := by
  rw [List.isPrefixOf_iff_prefix] at h
  obtain ⟨t, ht⟩ := h
  exact ⟨t, by rw [← ht]; simp⟩

theorem prefix_slash_extend (A rest : List Nat) :
    (A ++ [47]).isPrefixOf (A ++ 47 :: rest) = true := by
  rw [List.isPrefixOf_iff_prefix]
  exact ⟨rest, by simp⟩

/-- The state effect shared by the two destination cases of
`appendfs_rename`: starting from the table `st1.inodes` (the destination
possibly tombstoned), the ancestor row is repathed to `B` and every collected
descendant is repathed below `B`. -/
theorem rename_core (st st1 : FsState) (A B : List Nat) (now : Int)
    (fromIdx : Nat) (ino : Inode)
    (hget : st.inodes.get? fromIdx = some ino) (hApath : ino.path = A)
    (hget1 : st1.inodes.get? fromIdx = some ino)
    (huntouched : ∀ (i : Nat) (ino0 : Inode), st.inodes.get? i = some ino0 →
      ino0.deleted = false → ino0.path ≠ B → st1.inodes.get? i = some ino0)
    (hnest1 : (A ++ [47]).isPrefixOf B = false)
    (hnest2 : B.isPrefixOf A = false) :
    (∀ (i : Nat) (ino0 : Inode) (rest : List Nat),
        st.inodes.get? i = some ino0 → ino0.deleted = false →
        ino0.path = A ++ 47 :: rest →
        ∃ ino1 : Inode,
          (applyChildren (collectChildrenAux fromIdx A B 0 st1.inodes)
              (updateAt fromIdx
                (fun x => { x with path := B, deleted := false, mtime := now })
                st1.inodes)).get? i = some ino1 ∧
          ino1.path = B ++ 47 :: rest ∧ ino1.deleted = false) ∧
    (∀ (i : Nat) (ino1 : Inode),
        (applyChildren (collectChildrenAux fromIdx A B 0 st1.inodes)
            (updateAt fromIdx
              (fun x => { x with path := B, deleted := false, mtime := now })
              st1.inodes)).get? i = some ino1 →
        ino1.deleted = false →
        (A ++ [47]).isPrefixOf ino1.path = false) := by
  have hnd := collectChildrenAux_nodup fromIdx A B 0 st1.inodes
  constructor
  · intro i ino0 rest hg hd hp
    have hne : i ≠ fromIdx := by
      intro he
      subst he
      rw [hget] at hg
      injection hg with hg
      rw [← hg, hApath] at hp
      have := congrArg List.length hp
      simp [List.length_append] at this
    have hpB : ino0.path ≠ B := by
      intro he
      rw [hp] at he
      rw [← he] at hnest1
      rw [prefix_slash_extend A rest] at hnest1
      exact absurd hnest1 (by simp)
    have hst1 : st1.inodes.get? i = some ino0 := huntouched i ino0 hg hd hpB
    have hmem : (i, B ++ 47 :: rest) ∈ collectChildrenAux fromIdx A B 0 st1.inodes := by
      rw [collectChildrenAux_mem]
      refine ⟨i, ino0, hst1, by omega, hne, hd, childCond_extend A rest ino0 hp, ?_⟩
      rw [hp, List.drop_left]
    have hfq := find?_fst_of_mem _ i _ hnd hmem
    rw [applyChildren_get _ _ i hnd, hfq]
    rw [updateAt_get? _ st1.inodes fromIdx i, if_neg hne, hst1]
    exact ⟨_, rfl, rfl, rfl⟩
  · intro i ino1 hg hd
    rw [applyChildren_get _ _ i hnd] at hg
    cases hfq : (collectChildrenAux fromIdx A B 0 st1.inodes).find?
        (fun c => c.1 == i) with
    | some q =>
      rw [hfq] at hg
      obtain ⟨q1, q2⟩ := q
      have hq1 : q1 = i := by
        have := List.find?_some hfq
        simpa using this
      subst hq1
      have hqmem := List.mem_of_find?_eq_some hfq
      rw [collectChildrenAux_mem] at hqmem
      obtain ⟨j, ino0, hg1, hij, hnf, hd0, hc0, hq2⟩ := hqmem
      cases hx : (updateAt fromIdx
          (fun x => { x with path := B, deleted := false, mtime := now })
          st1.inodes).get? q1 with
      | none => rw [hx] at hg; simp at hg
      | some w =>
        rw [hx] at hg
        simp only [Option.map_some', Option.some.injEq] at hg
        rw [← hg]
        simp only
        by_contra hcon
        rw [Bool.not_eq_false] at hcon
        rw [hq2] at hcon
        exact nested_prefix_impossible A B _ (by simp [hnest1]) (by simp [hnest2]) hcon
    | none =>
      rw [hfq] at hg
      rw [updateAt_get? _ st1.inodes fromIdx i] at hg
      by_cases hif : i = fromIdx
      · rw [if_pos hif, hif, hget1] at hg
        simp only [Option.map_some', Option.some.injEq] at hg
        rw [← hg]
        exact hnest1
      · rw [if_neg hif] at hg
        by_contra hcon
        rw [Bool.not_eq_false] at hcon
        obtain ⟨rest, hshape⟩ := prefix_slash_shape A ino1.path hcon
        have hmem : (i, B ++ 47 :: rest) ∈
            collectChildrenAux fromIdx A B 0 st1.inodes := by
          rw [collectChildrenAux_mem]
          refine ⟨i, ino1, hg, by omega, hif, hd,
            childCond_extend A rest ino1 hshape, ?_⟩
          rw [hshape, List.drop_left]
        have := List.find?_eq_none.mp hfq _ hmem
        simp at this

/-! ### C7: subtree rename -/

/-- C7 amended: after a successful `rename(A, B)` of a live directory, with
normalized paths and provided neither path nests inside the other (`B` does
not begin with `A/` and `B` is not a prefix of `A` — the source does not
guard against renaming a directory beneath itself), every live inode whose
old path was a strict descendant `A/x` now has path `B/x` and is live, no
live inode has a path beginning with `A/`, and the appended records are the
ancestor's RENAME first (preceded only by the UNLINK of an overwritten
destination) with the descendants' RENAME records after it. -/
theorem C7_subtree_rename (st : FsState) (A B : List Nat) (now : Int)
    (hA : A.head? = some 47) (hB : B.head? = some 47)
    (hall : ∀ ino0 ∈ st.inodes, ino0.path.head? = some 47)
    (fromIdx : Nat) (ino : Inode)
    (hfind : find_inode_by_path st A = some (fromIdx, ino))
    (hdir : S_ISDIR ino.mode = true)
    (hsucc : (appendfs_rename st A B now []).1 = Except.ok ())
    (hnest1 : (A ++ [47]).isPrefixOf B = false)
    (hnest2 : B.isPrefixOf A = false) :
    (∀ (i : Nat) (ino0 : Inode) (rest : List Nat),
        st.inodes.get? i = some ino0 → ino0.deleted = false →
        ino0.path = A ++ 47 :: rest →
        ∃ ino1 : Inode,
          (appendfs_rename st A B now []).2.1.inodes.get? i = some ino1 ∧
          ino1.path = B ++ 47 :: rest ∧ ino1.deleted = false) ∧
    (∀ (i : Nat) (ino1 : Inode),
        (appendfs_rename st A B now []).2.1.inodes.get? i = some ino1 →
        ino1.deleted = false →
        (A ++ [47]).isPrefixOf ino1.path = false) ∧
    (∃ (pre tl : List MRec),
        (appendfs_rename st A B now []).2.2 = pre ++ rename_record ino B :: tl ∧
        (pre = [] ∨ ∃ d : Inode, pre = [unlink_record d]) ∧
        ∀ fr ∈ tl, fr.t = RT_RENAME) := by
  have hnormA := normalize_path_of_slash A hA
  have hnormB := normalize_path_of_slash B hB
  have hfind0 : find_inode_by_path_aux (normalize_path A) 0 st.inodes =
      some (fromIdx, ino) := hfind
  obtain ⟨hget, hdel, hmatch⟩ := find_inode_by_path_aux_get _ _ _ _ hfind0
  have hmem0 : ino ∈ st.inodes := List.get?_mem hget
  have hApath : ino.path = A := by
    have h1 := pathMatch_eq ino.path (normalize_path A) (hall ino hmem0)
      (by rw [hnormA]; exact hA) hmatch
    rw [hnormA] at h1
    exact h1
  have hAB : ¬ (A = B) := by
    intro h
    rw [h] at hnest2
    rw [show B.isPrefixOf B = true by
      rw [List.isPrefixOf_iff_prefix]] at hnest2
    · exact absurd hnest2 (by simp)
  cases hsplit : split_path B with
  | error e =>
    exfalso
    simp only [appendfs_rename, hnormA, hnormB, hfind, if_neg hAB, hsplit] at hsucc
    exact absurd hsucc (by simp)
  | ok pr =>
    obtain ⟨toParent, nm⟩ := pr
    by_cases hpm : parent_missing st toParent = true
    · exfalso
      simp only [appendfs_rename, hnormA, hnormB, hfind, if_neg hAB, hsplit,
        hpm, if_true] at hsucc
      exact absurd hsucc (by simp)
    · rw [Bool.not_eq_true] at hpm
      cases hdest : find_inode_by_path st B with
      | none =>
        rcases hloop : renameChildrenLoop (collectChildrenAux fromIdx A B 0 st.inodes)
            (updateAt fromIdx
              (fun x => { x with path := B, deleted := false, mtime := now })
              st.inodes)
            [] [rename_record ino B] with ⟨res, inodes3, frames2⟩
        obtain ⟨hres, hinodes3, tailRecs, hframes2, htail⟩ :=
          renameChildrenLoop_ok (collectChildrenAux fromIdx A B 0 st.inodes)
            (updateAt fromIdx
              (fun x => { x with path := B, deleted := false, mtime := now })
              st.inodes)
            [rename_record ino B]
        rw [hloop] at hres hinodes3 hframes2
        simp only at hres hinodes3 hframes2
        have hred : appendfs_rename st A B now [] =
            (res, { next_inode_id := st.next_inode_id, inodes := inodes3 },
              frames2) := by
          simp only [appendfs_rename, hnormA, hnormB, hfind, if_neg hAB, hsplit,
            hpm, hdest, write_record, List.nil_append, Bool.false_eq_true,
            if_false, Bool.not_true, hdir, eq_self_iff_true, if_true]
          rw [hloop]
        obtain ⟨hcore1, hcore2⟩ := rename_core st st A B now fromIdx ino hget
          hApath hget (fun i ino0 hg _ _ => hg) hnest1 hnest2
        refine ⟨?_, ?_, ?_⟩
        · intro i ino0 rest hg hd hp
          obtain ⟨ino1, h1, h2, h3⟩ := hcore1 i ino0 rest hg hd hp
          refine ⟨ino1, ?_, h2, h3⟩
          rw [hred]
          simp only
          rw [hinodes3]
          exact h1
        · intro i ino1 hg hd
          rw [hred] at hg
          simp only at hg
          rw [hinodes3] at hg
          exact hcore2 i ino1 hg hd
        · refine ⟨[], tailRecs, ?_, Or.inl rfl, htail⟩
          rw [hred]
          simp only
          rw [hframes2]
          simp
      | some q =>
        obtain ⟨destIdx, dest⟩ := q
        have hdest0 : find_inode_by_path_aux (normalize_path B) 0 st.inodes =
            some (destIdx, dest) := hdest
        obtain ⟨hgetD, hdelD, hmatchD⟩ := find_inode_by_path_aux_get _ _ _ _ hdest0
        have hmemD : dest ∈ st.inodes := List.get?_mem hgetD
        have hBpath : dest.path = B := by
          have h1 := pathMatch_eq dest.path (normalize_path B) (hall dest hmemD)
            (by rw [hnormB]; exact hB) hmatchD
          rw [hnormB] at h1
          exact h1
        have hfd : fromIdx ≠ destIdx := by
          intro he
          rw [he, hgetD] at hget
          injection hget with hq
          apply hAB
          rw [← hApath, ← hq]
          exact hBpath
        by_cases hdd : S_ISDIR dest.mode = true
        · by_cases hemp : appendfs_is_directory_empty st B = true
          · -- both directories, destination empty: tombstone then proceed
            rcases hloop : renameChildrenLoop
                (collectChildrenAux fromIdx A B 0
                  (updateAt destIdx (fun d => { d with deleted := true, mtime := now })
                    st.inodes))
                (updateAt fromIdx
                  (fun x => { x with path := B, deleted := false, mtime := now })
                  (updateAt destIdx (fun d => { d with deleted := true, mtime := now })
                    st.inodes))
                [] [unlink_record dest, rename_record ino B] with ⟨res, inodes3, frames2⟩
            obtain ⟨hres, hinodes3, tailRecs, hframes2, htail⟩ :=
              renameChildrenLoop_ok
                (collectChildrenAux fromIdx A B 0
                  (updateAt destIdx (fun d => { d with deleted := true, mtime := now })
                    st.inodes))
                (updateAt fromIdx
                  (fun x => { x with path := B, deleted := false, mtime := now })
                  (updateAt destIdx (fun d => { d with deleted := true, mtime := now })
                    st.inodes))
                [unlink_record dest, rename_record ino B]
            rw [hloop] at hres hinodes3 hframes2
            simp only at hres hinodes3 hframes2
            have hred : appendfs_rename st A B now [] =
                (res, { next_inode_id := st.next_inode_id, inodes := inodes3 },
                  frames2) := by
              simp only [appendfs_rename, hnormA, hnormB, hfind, if_neg hAB,
                hsplit, hpm, hdest, hdir, hdd, hemp, write_record,
                List.nil_append, Bool.false_eq_true, if_false, Bool.not_true,
                Bool.true_and, Bool.and_true, Bool.false_and, Bool.and_false,
                eq_self_iff_true, if_true, Bool.not_false,
                List.singleton_append, List.cons_append]
              rw [hloop]
            set st1 : FsState :=
              { st with
                  inodes := updateAt destIdx
                    (fun d => { d with deleted := true, mtime := now }) st.inodes }
              with hst1
            have hget1 : st1.inodes.get? fromIdx = some ino := by
              rw [hst1]
              simp only
              rw [updateAt_get? _ st.inodes destIdx fromIdx, if_neg hfd]
              exact hget
            have hunt : ∀ (i : Nat) (ino0 : Inode), st.inodes.get? i = some ino0 →
                ino0.deleted = false → ino0.path ≠ B →
                st1.inodes.get? i = some ino0 := by
              intro i ino0 hg hd hpB
              have hnd2 : i ≠ destIdx := by
                intro he
                rw [he, hgetD] at hg
                injection hg with hq
                apply hpB
                rw [← hq]
                exact hBpath
              rw [hst1]
              simp only
              rw [updateAt_get? _ st.inodes destIdx i, if_neg hnd2]
              exact hg
            obtain ⟨hcore1, hcore2⟩ := rename_core st st1 A B now fromIdx ino hget
              hApath hget1 hunt hnest1 hnest2
            refine ⟨?_, ?_, ?_⟩
            · intro i ino0 rest hg hd hp
              obtain ⟨ino1, h1, h2, h3⟩ := hcore1 i ino0 rest hg hd hp
              refine ⟨ino1, ?_, h2, h3⟩
              rw [hred]
              simp only
              rw [hinodes3]
              exact h1
            · intro i ino1 hg hd
              rw [hred] at hg
              simp only at hg
              rw [hinodes3] at hg
              exact hcore2 i ino1 hg hd
            · refine ⟨[unlink_record dest], tailRecs, ?_, Or.inr ⟨dest, rfl⟩, htail⟩
              rw [hred]
              simp only
              rw [hframes2]
              simp
          · exfalso
            simp only [appendfs_rename, hnormA, hnormB, hfind, if_neg hAB,
              hsplit, hpm, hdest, hdir, hdd, hemp, write_record,
              Bool.true_and, Bool.and_true, Bool.not_true, Bool.not_false,
              Bool.false_eq_true, if_false, if_true] at hsucc
            rw [Bool.not_eq_true] at hemp
            simp [hemp] at hsucc
        · exfalso
          simp only [appendfs_rename, hnormA, hnormB, hfind, if_neg hAB,
            hsplit, hpm, hdest, hdir, Bool.true_and] at hsucc
          rw [Bool.not_eq_true] at hdd
          simp [hdd] at hsucc



/-- C7 counterexample: renaming the live directory `/a` to `/a/b` succeeds
(the source does not reject a destination inside the moved directory) and
afterwards a live inode has path `/a/b`, which begins with `/a` followed by
`/` — the claim's "no live inode has a path beginning with A followed by '/'"
is violated. -/
theorem C7_counterexample :
    S_ISDIR inoC7.mode = true ∧
    (appendfs_rename stC7 [47, 97] [47, 97, 47, 98] 5 []).1 = Except.ok () ∧
    ∃ ino1 ∈ (appendfs_rename stC7 [47, 97] [47, 97, 47, 98] 5 []).2.1.inodes,
      ino1.deleted = false ∧ ([47, 97] ++ [47]).isPrefixOf ino1.path = true := by
  exact ⟨by decide, by rfl, by decide⟩




/-- C7 witness: the amended theorem applied to renaming directory `/a`
(holding `/a/c`) to `/x`. -/
theorem C7_witness :
    (∀ (i : Nat) (ino0 : Inode) (rest : List Nat),
        stC7w.inodes.get? i = some ino0 → ino0.deleted = false →
        ino0.path = [47, 97] ++ 47 :: rest →
        ∃ ino1 : Inode,
          (appendfs_rename stC7w [47, 97] [47, 120] 9 []).2.1.inodes.get? i =
            some ino1 ∧
          ino1.path = [47, 120] ++ 47 :: rest ∧ ino1.deleted = false) ∧
    (∀ (i : Nat) (ino1 : Inode),
        (appendfs_rename stC7w [47, 97] [47, 120] 9 []).2.1.inodes.get? i =
          some ino1 →
        ino1.deleted = false →
        ([47, 97] ++ [47]).isPrefixOf ino1.path = false) ∧
    (∃ (pre tl : List MRec),
        (appendfs_rename stC7w [47, 97] [47, 120] 9 []).2.2 =
          pre ++ rename_record dirC7 [47, 120] :: tl ∧
        (pre = [] ∨ ∃ d : Inode, pre = [unlink_record d]) ∧
        ∀ fr ∈ tl, fr.t = RT_RENAME) :=
  C7_subtree_rename stC7w [47, 97] [47, 120] 9 (by decide) (by decide)
    (by decide) 0 dirC7 (by rfl) (by decide) (by rfl) (by decide) (by decide)
